import Mathlib

/-!
Verification of the ARM926EJ-S PIC interrupt subsystem (interrupt.c) and the
exception-vector relocator (exception.c).

The tables and registers of the C code are embedded shallowly:
* `int8_t` fields become `Int` (registered values always fit in the int8 range),
* function pointers become `Nat` addresses, with `0` playing the role of `NULL`
  and fixed nonzero constants standing for the link addresses of the two dummy
  ISRs,
* the 32-entry priority tables become lists of records of length 32,
* the 16 `VICVECTCNTLn` / `VICVECTADDRn` hardware registers become two lists of
  `Nat` of length 16,
* `for` loops become recursions with the same index pattern,
* the first-capture scans (`if (irqPos<0 && P) irqPos = i;`) become
  `List.findIdx`, which returns the first index whose entry satisfies the
  predicate.  `List.findIdx` returns the list length (32) when nothing matches,
  which plays the role of the C sentinel `-1`; the C post-scan guard
  `irqPos>=NR_INTERRUPTS || irqPos<0 || prPos<0` is therefore rendered as
  `32 ≤ irqPos ∨ 32 ≤ prPos`.
-/

/-! ### Constants from interrupt.c -/

def UL1 : Nat := 0x00000001

def BM_VECT_ENABLE_BIT : Nat := 0x00000020

def NR_VECTORS : Nat := 16

def NR_INTERRUPTS : Nat := 32

/-- Model link address of `__irq_dummyISR` (any fixed nonzero address). -/
def irq_dummyISR : Nat := 0x9000

/-- Model link address of `__irq_dummyNvISR` (any fixed nonzero address). -/
def irq_dummyNvISR : Nat := 0x9100

/-! ### Non-vectored registry (struct _isrNvRecord and __isrNV) -/

structure isrNvRecord where
  irq : Int
  isr : Nat
  param : Nat
  priority : Int
deriving DecidableEq, Repr

/-- The cleared entry written by `pic_init` / `pic_unregisterNonVectoredIrq`. -/
def emptyNvRecord : isrNvRecord :=
  { irq := -1, isr := irq_dummyNvISR, param := 0, priority := -1 }

instance : Inhabited isrNvRecord := ⟨emptyNvRecord⟩

/-- `__isrNV` after `pic_init`: 32 cleared entries. -/
def initNvTable : List isrNvRecord := List.replicate NR_INTERRUPTS emptyNvRecord

/-- Scan predicate for `irqPos`: `__isrNV[i].irq<0 || __isrNV[i].irq==irq`. -/
def nvIrqPred (irq : Int) (e : isrNvRecord) : Bool :=
  decide (e.irq < 0) || decide (e.irq = irq)

/-- Scan predicate for `prPos`:
`__isrNV[i].priority<0 || __isrNV[i].priority<prior`. -/
def nvPrPred (prior : Int) (e : isrNvRecord) : Bool :=
  decide (e.priority < 0) || decide (e.priority < prior)

/-- `for ( i=irqPos; i>prPos; --i ) __isrNV[i] = __isrNV[i-1];` -/
def nvShiftDown (prPos : Nat) (t : List isrNvRecord) (i : Nat) : List isrNvRecord :=
  if h : prPos < i then
    nvShiftDown prPos (t.set i (t.getD (i - 1) emptyNvRecord)) (i - 1)
  else t
termination_by i
decreasing_by omega

/-- `for ( i=irqPos; i<prPos; ++i ) __isrNV[i] = __isrNV[i+1];`
(`prPos` here is the already decremented value). -/
def nvShiftUp (prPos : Nat) (t : List isrNvRecord) (i : Nat) : List isrNvRecord :=
  if h : i < prPos then
    nvShiftUp prPos (t.set i (t.getD (i + 1) emptyNvRecord)) (i + 1)
  else t
termination_by prPos - i
decreasing_by omega

/-- The shift phase of `pic_registerNonVectoredIrq`: both conditional shifts,
returning the table together with the (possibly decremented) `prPos`. -/
def nvRegShift (t : List isrNvRecord) (irqPos prPos : Nat) : List isrNvRecord × Nat :=
  let t1 := if prPos < irqPos then nvShiftDown prPos t irqPos else t
  if irqPos < prPos then (nvShiftUp (prPos - 1) t1 irqPos, prPos - 1) else (t1, prPos)

/-- `pic_registerNonVectoredIrq` acting on the table, returning the new table
and the `int8_t` result. -/
def pic_registerNonVectoredIrq (t : List isrNvRecord) (irq : Nat) (addr : Nat)
    (param : Nat) (priority : Nat) : List isrNvRecord × Int :=
  let prior : Int := ((priority &&& 0x7F : Nat) : Int)
  if NR_INTERRUPTS ≤ irq ∨ addr = 0 then (t, -1)
  else
    let irqPos := t.findIdx (nvIrqPred (irq : Int))
    let prPos := t.findIdx (nvPrPred prior)
    if NR_INTERRUPTS ≤ irqPos ∨ NR_INTERRUPTS ≤ prPos then (t, -1)
    else
      let sp := nvRegShift t irqPos prPos
      (sp.1.set sp.2 { irq := (irq : Int), isr := addr, param := param, priority := prior },
       (sp.2 : Int))

/-- `for ( ; pos<NR_INTERRUPTS-1; ++pos ) __isrNV[pos] = __isrNV[pos+1];` -/
def nvUnregShift (t : List isrNvRecord) (pos : Nat) : List isrNvRecord :=
  if h : pos < NR_INTERRUPTS - 1 then
    nvUnregShift (t.set pos (t.getD (pos + 1) emptyNvRecord)) (pos + 1)
  else t
termination_by NR_INTERRUPTS - pos
decreasing_by simp only [NR_INTERRUPTS] at *; omega

/-- `pic_unregisterNonVectoredIrq` acting on the table. -/
def pic_unregisterNonVectoredIrq (t : List isrNvRecord) (irq : Nat) : List isrNvRecord :=
  if NR_INTERRUPTS ≤ irq then t
  else
    let pos := t.findIdx (fun e => decide (e.irq = (irq : Int)))
    if NR_INTERRUPTS ≤ pos then t
    else (nvUnregShift t pos).set (NR_INTERRUPTS - 1) emptyNvRecord

/-! ### Non-vectored dispatch (_pic_IrqHandler, non-vectored branch)

The dispatch is modelled as the list of `(isr, param)` invocations it performs,
in order; the trailing dummy invocation is `(irq_dummyNvISR, 0)` (param NULL).
-/

/-- The scan loop of `_pic_IrqHandler` (non-vectored mode), returning the calls
made and the final value of the loop counter `i`. -/
def nvDispatchScan (t : List isrNvRecord) (status : Nat) (i : Nat) :
    List (Nat × Nat) × Nat :=
  if h : i < NR_INTERRUPTS then
    let e := t.getD i emptyNvRecord
    if e.irq < 0 ∨ (NR_INTERRUPTS : Int) ≤ e.irq then ([], i)
    else
      let calls := if status.testBit e.irq.toNat then [(e.isr, e.param)] else []
      let r := nvDispatchScan t status (i + 1)
      (calls ++ r.1, r.2)
  else ([], i)
termination_by NR_INTERRUPTS - i
decreasing_by simp only [NR_INTERRUPTS] at *; omega

/-- `_pic_IrqHandler` in non-vectored mode: scan the table against
`VICIRQSTATUS` (passed as `status`), then
`if ( i >= NR_INTERRUPTS ) __irq_dummyNvISR(NULL);`. -/
def picIrqHandlerNonVectored (t : List isrNvRecord) (status : Nat) : List (Nat × Nat) :=
  let r := nvDispatchScan t status 0
  if NR_INTERRUPTS ≤ r.2 then r.1 ++ [(irq_dummyNvISR, 0)] else r.1

/-! ### Vectored registry (struct _isrVectRecord, __irqVect, VICVECTCNTLn,
VICVECTADDRn) -/

structure isrVectRecord where
  irq : Int
  isr : Nat
  priority : Int
deriving DecidableEq, Repr

/-- The cleared entry written by `pic_init` / `pic_unregisterVectorIrq`. -/
def emptyVectRecord : isrVectRecord :=
  { irq := -1, isr := irq_dummyISR, priority := -1 }

instance : Inhabited isrVectRecord := ⟨emptyVectRecord⟩

/-- The vectored registry state: the logical table `__irqVect` plus the PIC's
`VICVECTCNTLn` and `VICVECTADDRn` register banks. -/
structure PicVectState where
  irqVect : List isrVectRecord
  vectCntl : List Nat
  vectAddr : List Nat
deriving DecidableEq, Repr

/-- State after `pic_init`: 32 cleared table entries, 16 cleared control
registers, 16 address registers holding the dummy ISR. -/
def pic_init_vect : PicVectState :=
  { irqVect := List.replicate NR_INTERRUPTS emptyVectRecord
    vectCntl := List.replicate NR_VECTORS 0
    vectAddr := List.replicate NR_VECTORS irq_dummyISR }

/-- The hardware re-synchronisation block repeated in `pic_registerVectorIrq`
and `pic_unregisterVectorIrq`:
for `i<NR_VECTORS`, write `VICVECTCNTLn[i]`/`VICVECTADDRn[i]` from the (already
updated) table entry `__irqVect[i]`, clearing them when the entry is empty. -/
def syncVectSlot (st : PicVectState) (i : Nat) : PicVectState :=
  if i < NR_VECTORS then
    let e := st.irqVect.getD i emptyVectRecord
    if 0 ≤ e.irq then
      { st with vectCntl := st.vectCntl.set i (e.irq.toNat ||| BM_VECT_ENABLE_BIT)
                vectAddr := st.vectAddr.set i e.isr }
    else
      { st with vectCntl := st.vectCntl.set i 0
                vectAddr := st.vectAddr.set i irq_dummyISR }
  else st

/-- Scan predicate for the vectored `irqPos`. -/
def vIrqPred (irq : Int) (e : isrVectRecord) : Bool :=
  decide (e.irq < 0) || decide (e.irq = irq)

/-- Scan predicate for the vectored `prPos`. -/
def vPrPred (prior : Int) (e : isrVectRecord) : Bool :=
  decide (e.priority < 0) || decide (e.priority < prior)

/-- Vectored shift-down loop: table move plus per-index hardware update. -/
def vShiftDown (prPos : Nat) (st : PicVectState) (i : Nat) : PicVectState :=
  if h : prPos < i then
    let st1 := { st with irqVect := st.irqVect.set i (st.irqVect.getD (i - 1) emptyVectRecord) }
    vShiftDown prPos (syncVectSlot st1 i) (i - 1)
  else st
termination_by i
decreasing_by omega

/-- Vectored shift-up loop (`prPos` already decremented). -/
def vShiftUp (prPos : Nat) (st : PicVectState) (i : Nat) : PicVectState :=
  if h : i < prPos then
    let st1 := { st with irqVect := st.irqVect.set i (st.irqVect.getD (i + 1) emptyVectRecord) }
    vShiftUp prPos (syncVectSlot st1 i) (i + 1)
  else st
termination_by prPos - i
decreasing_by omega

/-- The shift phase of `pic_registerVectorIrq`, returning the state together
with the (possibly decremented) `prPos`. -/
def vRegShift (st : PicVectState) (irqPos prPos : Nat) : PicVectState × Nat :=
  let st1 := if prPos < irqPos then vShiftDown prPos st irqPos else st
  if irqPos < prPos then (vShiftUp (prPos - 1) st1 irqPos, prPos - 1) else (st1, prPos)

/-- The final write of `pic_registerVectorIrq`: fill the entry at `prPos`, and
for `prPos<NR_VECTORS` write the vector registers (the `irq >= 0` test of the C
code is kept literally, on the value of the `uint8_t` argument). -/
def vRegWrite (st : PicVectState) (irq addr : Nat) (prior : Int) (prPos : Nat) :
    PicVectState :=
  let st1 := { st with
    irqVect := st.irqVect.set prPos { irq := (irq : Int), isr := addr, priority := prior } }
  if prPos < NR_VECTORS then
    if 0 ≤ (irq : Int) then
      { st1 with vectCntl := st1.vectCntl.set prPos (irq ||| BM_VECT_ENABLE_BIT)
                 vectAddr := st1.vectAddr.set prPos addr }
    else
      { st1 with vectCntl := st1.vectCntl.set prPos 0
                 vectAddr := st1.vectAddr.set prPos irq_dummyISR }
  else st1

/-- `pic_registerVectorIrq`. -/
def pic_registerVectorIrq (st : PicVectState) (irq addr priority : Nat) :
    PicVectState × Int :=
  let prior : Int := ((priority &&& 0x7F : Nat) : Int)
  if NR_INTERRUPTS ≤ irq ∨ addr = 0 then (st, -1)
  else
    let irqPos := st.irqVect.findIdx (vIrqPred (irq : Int))
    let prPos := st.irqVect.findIdx (vPrPred prior)
    if NR_INTERRUPTS ≤ irqPos ∨ NR_INTERRUPTS ≤ prPos then (st, -1)
    else
      let sp := vRegShift st irqPos prPos
      (vRegWrite sp.1 irq addr prior sp.2, (sp.2 : Int))

/-- The shift loop of `pic_unregisterVectorIrq`: table move plus per-index
hardware update. -/
def vUnregShift (st : PicVectState) (pos : Nat) : PicVectState :=
  if h : pos < NR_INTERRUPTS - 1 then
    let st1 := { st with irqVect := st.irqVect.set pos (st.irqVect.getD (pos + 1) emptyVectRecord) }
    vUnregShift (syncVectSlot st1 pos) (pos + 1)
  else st
termination_by NR_INTERRUPTS - pos
decreasing_by simp only [NR_INTERRUPTS] at *; omega

/-- `pic_unregisterVectorIrq`. -/
def pic_unregisterVectorIrq (st : PicVectState) (irq : Nat) : PicVectState :=
  if NR_INTERRUPTS ≤ irq then st
  else
    let pos := st.irqVect.findIdx (fun e => decide (e.irq = (irq : Int)))
    if NR_INTERRUPTS ≤ pos then st
    else
      let st1 := vUnregShift st pos
      { st1 with irqVect := st1.irqVect.set (NR_INTERRUPTS - 1) emptyVectRecord }

/-- `pic_unregisterAllVectorIrqs`, exactly as written: the loop runs
`for ( i=0; i<NR_VECTORS; ++i )` (not `NR_INTERRUPTS`), clearing table entry
`i`, and inside it the vestigial `if ( i<NR_VECTORS )` guards the register
writes. -/
def pic_unregisterAllVectorIrqs (st : PicVectState) : PicVectState :=
  (List.range NR_VECTORS).foldl
    (fun st i =>
      let st1 := { st with irqVect := st.irqVect.set i emptyVectRecord }
      if i < NR_VECTORS then
        { st1 with vectCntl := st1.vectCntl.set i 0
                   vectAddr := st1.vectAddr.set i irq_dummyISR }
      else st1)
    st

/-! ### Vector-table relocator (copy_vectors, exception.c)

Memory is modelled as a total word-addressed map `Nat → Nat`; `vectors_start`,
`vectors_end` and the injected destination constant `MEM_DST_START` are word
addresses.  The pointer-difference guard
`block_len > ((uint32_t* const) MAX_ADDRESS - dst_start)` is rendered in word
units: `MAX_ADDRESS` is byte address `0xFFFFFFFF` and a word pointer at word
address `d` sits at byte address `4*d`.
-/

def MEM_DST_START : Nat := 0x00000000

def MAX_ADDRESS : Nat := 0xFFFFFFFF

/-- `while (vectors_src < src_end) *vectors_dst++ = *vectors_src++;`
as a recursion on the remaining word count. -/
def copyFwdLoop (m : Nat → Nat) (src dst : Nat) : Nat → (Nat → Nat)
  | 0 => m
  | n + 1 => copyFwdLoop (Function.update m dst (m src)) (src + 1) (dst + 1) n

/-- `while ( vectors_dst >= dst_start ) *vectors_dst-- = *vectors_src--;`
as a recursion on the remaining word count, starting from the high ends. -/
def copyBwdLoop (m : Nat → Nat) (srcHigh dstHigh : Nat) : Nat → (Nat → Nat)
  | 0 => m
  | n + 1 => copyBwdLoop (Function.update m dstHigh (m srcHigh)) (srcHigh - 1) (dstHigh - 1) n

/-- `copy_vectors`, parameterised by the pre-copy memory, the two link symbols
and the injected destination constant. -/
def copy_vectors (m : Nat → Nat) (vectors_start vectors_end dst_start : Nat) :
    Nat → Nat :=
  let src_begin := if vectors_start ≤ vectors_end then vectors_start else vectors_end
  let src_end := if vectors_start ≤ vectors_end then vectors_end else vectors_start
  let block_len := src_end - src_begin
  if dst_start = src_begin then m
  else if (MAX_ADDRESS - 4 * dst_start) / 4 < block_len then m
  else if dst_start < src_begin ∨ src_end ≤ dst_start then
    copyFwdLoop m src_begin dst_start block_len
  else
    copyBwdLoop m (src_end - 1) (dst_start + block_len - 1) block_len

/-! ### Predicates, scenario states and request sequences used below -/

/-- A vectored state whose logical entry 16 is occupied (e.g. after 17
registrations on distinct lines). -/
def c1State : PicVectState :=
  { pic_init_vect with
    irqVect := pic_init_vect.irqVect.set 16 { irq := 5, isr := 0x2000, priority := 10 } }

/-- A completely full non-vectored table: entry `i` services IRQ line `i`. -/
def c2FullTable : List isrNvRecord :=
  (List.range 32).map (fun (i : Nat) =>
    { irq := (i : Int), isr := 100 + i, param := 0, priority := 5 })

/-- Dense-then-empty for the non-vectored table: below any occupied entry every
entry is occupied (equivalently, the occupied entries form a prefix). -/
def nvDense (t : List isrNvRecord) : Prop :=
  ∀ i j, i ≤ j → j < 32 → 0 ≤ (t.getD j emptyNvRecord).irq → 0 ≤ (t.getD i emptyNvRecord).irq

/-- Dense-then-empty for the vectored table. -/
def vDense (t : List isrVectRecord) : Prop :=
  ∀ i j, i ≤ j → j < 32 → 0 ≤ (t.getD j emptyVectRecord).irq → 0 ≤ (t.getD i emptyVectRecord).irq

/-- Hardware slot `k` mirrors logical entry `k`: an occupied entry is reflected
as `line | BM_VECT_ENABLE_BIT` in `VICVECTCNTLn[k]` and the handler address in
`VICVECTADDRn[k]`; an empty entry as a cleared control register and the dummy
handler. -/
def mirrorAt (st : PicVectState) (k : Nat) : Prop :=
  if 0 ≤ (st.irqVect.getD k emptyVectRecord).irq then
    st.vectCntl.getD k 0 = (st.irqVect.getD k emptyVectRecord).irq.toNat ||| BM_VECT_ENABLE_BIT ∧
    st.vectAddr.getD k 0 = (st.irqVect.getD k emptyVectRecord).isr
  else
    st.vectCntl.getD k 0 = 0 ∧ st.vectAddr.getD k 0 = irq_dummyISR

/-- All 16 hardware slots mirror their logical entries. -/
def slotsMirror (st : PicVectState) : Prop := ∀ k, k < NR_VECTORS → mirrorAt st k

/-- Well-formedness of the vectored state: table and register banks have their
hardware sizes and the mirror invariant holds. -/
def vWF (st : PicVectState) : Prop :=
  st.irqVect.length = 32 ∧ st.vectCntl.length = 16 ∧ st.vectAddr.length = 16 ∧ slotsMirror st

/-- One call into the vectored registry. -/
inductive VectOp where
  | reg (irq addr priority : Nat)
  | unreg (irq : Nat)
deriving DecidableEq, Repr

def applyVectOp (st : PicVectState) : VectOp → PicVectState
  | VectOp.reg irq addr priority => (pic_registerVectorIrq st irq addr priority).1
  | VectOp.unreg irq => pic_unregisterVectorIrq st irq

def applyVectOps (st : PicVectState) (ops : List VectOp) : PicVectState :=
  ops.foldl applyVectOp st

/-- A registration request (for the non-vectored registry `param` is passed,
the vectored registry ignores it). -/
structure RegReq where
  irq : Nat
  addr : Nat
  param : Nat
  priority : Nat
deriving DecidableEq, Repr

def nvRunRegs (regs : List RegReq) : List isrNvRecord :=
  regs.foldl (fun t r => (pic_registerNonVectoredIrq t r.irq r.addr r.param r.priority).1)
    initNvTable

def vRunRegs (regs : List RegReq) : PicVectState :=
  regs.foldl (fun st r => (pic_registerVectorIrq st r.irq r.addr r.priority).1) pic_init_vect

/-- A request reduced to the data the ordering argument needs: its line and its
masked priority. -/
def encodeReq (r : RegReq) : Int × Int :=
  ((r.irq : Int), ((r.priority &&& 0x7F : Nat) : Int))

/-- Position of the (unique) request with line `x` in the processed sequence. -/
def lineIdx (done : List (Int × Int)) (x : Int) : Nat :=
  done.findIdx (fun c => decide (c.1 = x))

/-- A non-vectored table with line 5 registered at index 0. -/
def c7NvTable : List isrNvRecord :=
  initNvTable.set 0 { irq := 5, isr := 100, param := 0, priority := 10 }

/-- A vectored state with line 5 registered at index 0. -/
def c7VectState : PicVectState :=
  { pic_init_vect with
    irqVect := pic_init_vect.irqVect.set 0 { irq := 5, isr := 100, priority := 10 } }

/-- Two-registration scenario used as the C4 witness. -/
def c4Regs : List RegReq :=
  [{ irq := 5, addr := 100, param := 0, priority := 10 },
   { irq := 3, addr := 200, param := 0, priority := 50 }]

section AbstractSortInv

variable {α : Type} (irqOf prioOf : α → Int) (d : α)

/-- The invariant tying a priority table to the sequence `done` of requests
(line, masked priority) registered so far, on fresh distinct lines: the table
is an occupied prefix of length `done.length`, sorted by non-increasing
priority, every occupied entry carries the priority of its request, and
entries of equal priority appear in registration order. -/
structure SortInv (done : List (Int × Int)) (t : List α) : Prop where
  len : t.length = 32
  nle : done.length ≤ 32
  dense : ∀ i, i < 32 → (0 ≤ irqOf (t.getD i d) ↔ i < done.length)
  pdense : ∀ i, i < 32 → (0 ≤ prioOf (t.getD i d) ↔ i < done.length)
  sorted : ∀ i j, i ≤ j → j < 32 → prioOf (t.getD j d) ≤ prioOf (t.getD i d)
  lines : ∀ i, i < done.length →
    lineIdx done (irqOf (t.getD i d)) < done.length ∧
    (done.getD (lineIdx done (irqOf (t.getD i d))) (0, 0)).2 = prioOf (t.getD i d)
  stable : ∀ i j, i < j → j < done.length →
    prioOf (t.getD i d) = prioOf (t.getD j d) →
    lineIdx done (irqOf (t.getD i d)) < lineIdx done (irqOf (t.getD j d))

end AbstractSortInv

/-- The final insertion position: `prPos`, decremented when the up-shift branch
was taken. -/
def regFinalPos (iP pP : Nat) : Nat := if iP < pP then pP - 1 else pP

/-- The pointwise effect of one successful registration on a table: the new
entry lands at `regFinalPos iP pP`, the entries strictly between the two scan
positions move one slot toward `iP`, everything else is untouched. -/
def shiftedGetD {α : Type} (d : α) (t : List α) (iP pP : Nat) (e : α) (k : Nat) : α :=
  if k = regFinalPos iP pP then e
  else if pP < k ∧ k ≤ iP then t.getD (k - 1) d
  else if iP ≤ k ∧ k < regFinalPos iP pP then t.getD (k + 1) d
  else t.getD k d

/-! ### Generic list helper lemmas (getD / findIdx) -/

theorem getD_set_self {α : Type} (l : List α) {i : Nat} (a d : α) (h : i < l.length) :
    (l.set i a).getD i d = a := by
  rw [List.getD_eq_getElem?_getD, List.getElem?_set_self h]
  rfl

theorem getD_set_ne {α : Type} (l : List α) {i k : Nat} (a d : α) (h : i ≠ k) :
    (l.set i a).getD k d = l.getD k d := by
  rw [List.getD_eq_getElem?_getD, List.getElem?_set_ne h, ← List.getD_eq_getElem?_getD]

theorem getD_of_lt {α : Type} (l : List α) {i : Nat} (d : α) (h : i < l.length) :
    l.getD i d = l[i] := by
  rw [List.getD_eq_getElem?_getD, List.getElem?_eq_getElem h]
  rfl

theorem getD_replicate {α : Type} {n i : Nat} (a d : α) (h : i < n) :
    (List.replicate n a).getD i d = a := by
  rw [List.getD_eq_getElem?_getD, List.getElem?_replicate, if_pos h]
  rfl

theorem findIdx_pred_false {α : Type} {p : α → Bool} {l : List α} {j : Nat} (d : α)
    (hj : j < l.findIdx p) : p (l.getD j d) = false := by
  have hlen : j < l.length := lt_of_lt_of_le hj (List.findIdx_le_length p)
  rw [getD_of_lt l d hlen]
  exact List.not_of_lt_findIdx hj

theorem findIdx_pred_true {α : Type} {p : α → Bool} {l : List α} (d : α)
    (h : l.findIdx p < l.length) : p (l.getD (l.findIdx p) d) = true := by
  rw [getD_of_lt l d h]
  exact @List.findIdx_getElem _ _ _ h

theorem findIdx_le_of_pred {α : Type} {p : α → Bool} {l : List α} {i : Nat} (d : α)
    (hi : i < l.length) (hp : p (l.getD i d) = true) : l.findIdx p ≤ i := by
  by_contra hcon
  push_neg at hcon
  have := findIdx_pred_false d hcon
  rw [hp] at this
  simp at this

theorem findIdx_eq_of_getD {α : Type} {p : α → Bool} {l : List α} {i : Nat} (d : α)
    (hi : i < l.length) (ht : p (l.getD i d) = true)
    (hf : ∀ j, j < i → p (l.getD j d) = false) : l.findIdx p = i := by
  rw [List.findIdx_eq hi]
  constructor
  · rw [← getD_of_lt l d hi]; exact ht
  · intro j hji
    have hjl : j < l.length := lt_trans hji hi
    rw [← getD_of_lt l d hjl]
    exact hf j hji

theorem findIdx_map {α β : Type} (f : α → β) (p : β → Bool) (l : List α) :
    (l.map f).findIdx p = l.findIdx (fun a => p (f a)) := by
  induction l with
  | nil => rfl
  | cons a l ih => simp [List.findIdx_cons, ih]

/-! ### Pointwise characterisation of the non-vectored loops -/

theorem nvShiftDown_length (prPos : Nat) (t : List isrNvRecord) (i : Nat) :
    (nvShiftDown prPos t i).length = t.length := by
  induction t, i using nvShiftDown.induct prPos with
  | case1 t i h ih => rw [nvShiftDown, dif_pos h]; rw [ih, List.length_set]
  | case2 t i h => rw [nvShiftDown, dif_neg h]

theorem nvShiftDown_getD (prPos : Nat) (t : List isrNvRecord) (i : Nat)
    (hi : i < t.length) (k : Nat) :
    (nvShiftDown prPos t i).getD k emptyNvRecord =
      if prPos < k ∧ k ≤ i then t.getD (k - 1) emptyNvRecord
      else t.getD k emptyNvRecord := by
  induction t, i using nvShiftDown.induct prPos with
  | case1 t i h ih =>
    rw [nvShiftDown, dif_pos h]
    have hlen : i - 1 < (t.set i (t.getD (i - 1) emptyNvRecord)).length := by
      rw [List.length_set]; omega
    rw [ih hlen]
    by_cases hk1 : prPos < k ∧ k ≤ i - 1
    · rw [if_pos hk1, if_pos (by omega)]
      exact getD_set_ne t _ _ (by omega)
    · rw [if_neg hk1]
      by_cases hk2 : k = i
      · subst hk2
        rw [if_pos (by omega)]
        exact getD_set_self t _ _ hi
      · rw [if_neg (by omega)]
        exact getD_set_ne t _ _ (by omega)
  | case2 t i h =>
    rw [nvShiftDown, dif_neg h, if_neg (by omega)]

theorem nvShiftUp_length (prPos : Nat) (t : List isrNvRecord) (i : Nat) :
    (nvShiftUp prPos t i).length = t.length := by
  induction t, i using nvShiftUp.induct prPos with
  | case1 t i h ih => rw [nvShiftUp, dif_pos h]; rw [ih, List.length_set]
  | case2 t i h => rw [nvShiftUp, dif_neg h]

theorem nvShiftUp_getD (prPos : Nat) (t : List isrNvRecord) (i : Nat)
    (hp : prPos ≤ t.length) (k : Nat) :
    (nvShiftUp prPos t i).getD k emptyNvRecord =
      if i ≤ k ∧ k < prPos then t.getD (k + 1) emptyNvRecord
      else t.getD k emptyNvRecord := by
  induction t, i using nvShiftUp.induct prPos with
  | case1 t i h ih =>
    rw [nvShiftUp, dif_pos h]
    have hlen : prPos ≤ (t.set i (t.getD (i + 1) emptyNvRecord)).length := by
      rw [List.length_set]; omega
    rw [ih hlen]
    by_cases hk1 : i + 1 ≤ k ∧ k < prPos
    · rw [if_pos hk1, if_pos (by omega)]
      exact getD_set_ne t _ _ (by omega)
    · rw [if_neg hk1]
      by_cases hk2 : k = i
      · subst hk2
        rw [if_pos (by omega)]
        exact getD_set_self t _ _ (by omega)
      · rw [if_neg (by omega)]
        exact getD_set_ne t _ _ (by omega)
  | case2 t i h =>
    rw [nvShiftUp, dif_neg h, if_neg (by omega)]

theorem nvUnregShift_length (t : List isrNvRecord) (pos : Nat) :
    (nvUnregShift t pos).length = t.length := by
  induction t, pos using nvUnregShift.induct with
  | case1 t pos h ih => rw [nvUnregShift, dif_pos h]; rw [ih, List.length_set]
  | case2 t pos h => rw [nvUnregShift, dif_neg h]

theorem nvUnregShift_getD (t : List isrNvRecord) (pos : Nat)
    (hlen : t.length = 32) (k : Nat) :
    (nvUnregShift t pos).getD k emptyNvRecord =
      if pos ≤ k ∧ k < 31 then t.getD (k + 1) emptyNvRecord
      else t.getD k emptyNvRecord := by
  induction t, pos using nvUnregShift.induct with
  | case1 t pos h ih =>
    simp only [NR_INTERRUPTS] at h
    rw [nvUnregShift, dif_pos (by simp only [NR_INTERRUPTS]; omega)]
    have hlen1 : (t.set pos (t.getD (pos + 1) emptyNvRecord)).length = 32 := by
      rw [List.length_set]; exact hlen
    rw [ih hlen1]
    by_cases hk1 : pos + 1 ≤ k ∧ k < 31
    · rw [if_pos hk1, if_pos (by omega)]
      exact getD_set_ne t _ _ (by omega)
    · rw [if_neg hk1]
      by_cases hk2 : k = pos
      · subst hk2
        rw [if_pos (by omega)]
        exact getD_set_self t _ _ (by omega)
      · rw [if_neg (by omega)]
        exact getD_set_ne t _ _ (by omega)
  | case2 t pos h =>
    simp only [NR_INTERRUPTS] at h
    rw [nvUnregShift, dif_neg (by simp only [NR_INTERRUPTS]; omega), if_neg (by omega)]

/-! ### Pointwise characterisation of the vectored loops (table component) -/

theorem syncVectSlot_irqVect (st : PicVectState) (i : Nat) :
    (syncVectSlot st i).irqVect = st.irqVect := by
  simp only [syncVectSlot]
  split_ifs <;> rfl

theorem syncVectSlot_cntl_length (st : PicVectState) (i : Nat) :
    (syncVectSlot st i).vectCntl.length = st.vectCntl.length := by
  simp only [syncVectSlot]
  split_ifs <;> simp [List.length_set]

theorem syncVectSlot_addr_length (st : PicVectState) (i : Nat) :
    (syncVectSlot st i).vectAddr.length = st.vectAddr.length := by
  simp only [syncVectSlot]
  split_ifs <;> simp [List.length_set]

theorem vShiftDown_step (prPos : Nat) (st : PicVectState) (i : Nat) (h : prPos < i) :
    vShiftDown prPos st i =
      vShiftDown prPos
        (syncVectSlot
          { st with irqVect := st.irqVect.set i (st.irqVect.getD (i - 1) emptyVectRecord) } i)
        (i - 1) := by
  rw [vShiftDown, dif_pos h]

theorem vShiftDown_stop (prPos : Nat) (st : PicVectState) (i : Nat) (h : ¬ prPos < i) :
    vShiftDown prPos st i = st := by
  rw [vShiftDown, dif_neg h]

theorem vShiftUp_step (prPos : Nat) (st : PicVectState) (i : Nat) (h : i < prPos) :
    vShiftUp prPos st i =
      vShiftUp prPos
        (syncVectSlot
          { st with irqVect := st.irqVect.set i (st.irqVect.getD (i + 1) emptyVectRecord) } i)
        (i + 1) := by
  rw [vShiftUp, dif_pos h]

theorem vShiftUp_stop (prPos : Nat) (st : PicVectState) (i : Nat) (h : ¬ i < prPos) :
    vShiftUp prPos st i = st := by
  rw [vShiftUp, dif_neg h]

theorem vUnregShift_step (st : PicVectState) (pos : Nat) (h : pos < NR_INTERRUPTS - 1) :
    vUnregShift st pos =
      vUnregShift
        (syncVectSlot
          { st with irqVect := st.irqVect.set pos (st.irqVect.getD (pos + 1) emptyVectRecord) }
          pos)
        (pos + 1) := by
  rw [vUnregShift, dif_pos h]

theorem vUnregShift_stop (st : PicVectState) (pos : Nat) (h : ¬ pos < NR_INTERRUPTS - 1) :
    vUnregShift st pos = st := by
  rw [vUnregShift, dif_neg h]

theorem vShiftDown_irqVect_length (prPos : Nat) (i : Nat) : ∀ (st : PicVectState),
    (vShiftDown prPos st i).irqVect.length = st.irqVect.length := by
  induction i using Nat.strong_induction_on with
  | _ i ih =>
    intro st
    by_cases h : prPos < i
    · rw [vShiftDown_step prPos st i h, ih (i - 1) (by omega),
        syncVectSlot_irqVect]
      simp [List.length_set]
    · rw [vShiftDown_stop prPos st i h]

theorem vShiftDown_cntl_length (prPos : Nat) (i : Nat) : ∀ (st : PicVectState),
    (vShiftDown prPos st i).vectCntl.length = st.vectCntl.length := by
  induction i using Nat.strong_induction_on with
  | _ i ih =>
    intro st
    by_cases h : prPos < i
    · rw [vShiftDown_step prPos st i h, ih (i - 1) (by omega),
        syncVectSlot_cntl_length]
    · rw [vShiftDown_stop prPos st i h]

theorem vShiftDown_addr_length (prPos : Nat) (i : Nat) : ∀ (st : PicVectState),
    (vShiftDown prPos st i).vectAddr.length = st.vectAddr.length := by
  induction i using Nat.strong_induction_on with
  | _ i ih =>
    intro st
    by_cases h : prPos < i
    · rw [vShiftDown_step prPos st i h, ih (i - 1) (by omega),
        syncVectSlot_addr_length]
    · rw [vShiftDown_stop prPos st i h]

theorem vShiftDown_irqVect_getD (prPos : Nat) (i : Nat) : ∀ (st : PicVectState),
    i < st.irqVect.length → ∀ (k : Nat),
    (vShiftDown prPos st i).irqVect.getD k emptyVectRecord =
      if prPos < k ∧ k ≤ i then st.irqVect.getD (k - 1) emptyVectRecord
      else st.irqVect.getD k emptyVectRecord := by
  induction i using Nat.strong_induction_on with
  | _ i ih =>
    intro st hi k
    by_cases h : prPos < i
    · rw [vShiftDown_step prPos st i h]
      have hlen : i - 1 < (syncVectSlot
          { st with irqVect := st.irqVect.set i (st.irqVect.getD (i - 1) emptyVectRecord) }
          i).irqVect.length := by
        rw [syncVectSlot_irqVect]
        simp only [List.length_set]
        omega
      rw [ih (i - 1) (by omega) _ hlen k, syncVectSlot_irqVect]
      by_cases hk1 : prPos < k ∧ k ≤ i - 1
      · rw [if_pos hk1, if_pos (by omega)]
        exact getD_set_ne _ _ _ (by omega)
      · rw [if_neg hk1]
        by_cases hk2 : k = i
        · subst hk2
          rw [if_pos (by omega)]
          exact getD_set_self _ _ _ hi
        · rw [if_neg (by omega)]
          exact getD_set_ne _ _ _ (by omega)
    · rw [vShiftDown_stop prPos st i h, if_neg (by omega)]

theorem vShiftUp_irqVect_length (prPos : Nat) (i : Nat) (st : PicVectState) :
    (vShiftUp prPos st i).irqVect.length = st.irqVect.length := by
  have key : ∀ (n i : Nat), prPos - i ≤ n → ∀ (st : PicVectState),
      (vShiftUp prPos st i).irqVect.length = st.irqVect.length := by
    intro n
    induction n with
    | zero => intro i hle st; rw [vShiftUp_stop prPos st i (by omega)]
    | succ n ihn =>
      intro i hle st
      by_cases h : i < prPos
      · rw [vShiftUp_step prPos st i h, ihn (i + 1) (by omega), syncVectSlot_irqVect]
        simp [List.length_set]
      · rw [vShiftUp_stop prPos st i h]
  exact key (prPos - i) i le_rfl st

theorem vShiftUp_cntl_length (prPos : Nat) (i : Nat) (st : PicVectState) :
    (vShiftUp prPos st i).vectCntl.length = st.vectCntl.length := by
  have key : ∀ (n i : Nat), prPos - i ≤ n → ∀ (st : PicVectState),
      (vShiftUp prPos st i).vectCntl.length = st.vectCntl.length := by
    intro n
    induction n with
    | zero => intro i hle st; rw [vShiftUp_stop prPos st i (by omega)]
    | succ n ihn =>
      intro i hle st
      by_cases h : i < prPos
      · rw [vShiftUp_step prPos st i h, ihn (i + 1) (by omega), syncVectSlot_cntl_length]
      · rw [vShiftUp_stop prPos st i h]
  exact key (prPos - i) i le_rfl st

theorem vShiftUp_addr_length (prPos : Nat) (i : Nat) (st : PicVectState) :
    (vShiftUp prPos st i).vectAddr.length = st.vectAddr.length := by
  have key : ∀ (n i : Nat), prPos - i ≤ n → ∀ (st : PicVectState),
      (vShiftUp prPos st i).vectAddr.length = st.vectAddr.length := by
    intro n
    induction n with
    | zero => intro i hle st; rw [vShiftUp_stop prPos st i (by omega)]
    | succ n ihn =>
      intro i hle st
      by_cases h : i < prPos
      · rw [vShiftUp_step prPos st i h, ihn (i + 1) (by omega), syncVectSlot_addr_length]
      · rw [vShiftUp_stop prPos st i h]
  exact key (prPos - i) i le_rfl st

theorem vShiftUp_irqVect_getD (prPos : Nat) (i : Nat) (st : PicVectState)
    (hp : prPos ≤ st.irqVect.length) (k : Nat) :
    (vShiftUp prPos st i).irqVect.getD k emptyVectRecord =
      if i ≤ k ∧ k < prPos then st.irqVect.getD (k + 1) emptyVectRecord
      else st.irqVect.getD k emptyVectRecord := by
  have key : ∀ (n i : Nat), prPos - i ≤ n → ∀ (st : PicVectState),
      prPos ≤ st.irqVect.length → ∀ (k : Nat),
      (vShiftUp prPos st i).irqVect.getD k emptyVectRecord =
        if i ≤ k ∧ k < prPos then st.irqVect.getD (k + 1) emptyVectRecord
        else st.irqVect.getD k emptyVectRecord := by
    intro n
    induction n with
    | zero =>
      intro i hle st hlen k
      rw [vShiftUp_stop prPos st i (by omega), if_neg (by omega)]
    | succ n ihn =>
      intro i hle st hlen k
      by_cases h : i < prPos
      · rw [vShiftUp_step prPos st i h]
        have hlen1 : prPos ≤ (syncVectSlot
            { st with irqVect := st.irqVect.set i (st.irqVect.getD (i + 1) emptyVectRecord) }
            i).irqVect.length := by
          rw [syncVectSlot_irqVect]
          simp only [List.length_set]
          omega
        rw [ihn (i + 1) (by omega) _ hlen1 k, syncVectSlot_irqVect]
        by_cases hk1 : i + 1 ≤ k ∧ k < prPos
        · rw [if_pos hk1, if_pos (by omega)]
          exact getD_set_ne _ _ _ (by omega)
        · rw [if_neg hk1]
          by_cases hk2 : k = i
          · subst hk2
            rw [if_pos (by omega)]
            exact getD_set_self _ _ _ (by omega)
          · rw [if_neg (by omega)]
            exact getD_set_ne _ _ _ (by omega)
      · rw [vShiftUp_stop prPos st i h, if_neg (by omega)]
  exact key (prPos - i) i le_rfl st hp k

theorem vUnregShift_irqVect_length (pos : Nat) (st : PicVectState) :
    (vUnregShift st pos).irqVect.length = st.irqVect.length := by
  have key : ∀ (n pos : Nat), 31 - pos ≤ n → ∀ (st : PicVectState),
      (vUnregShift st pos).irqVect.length = st.irqVect.length := by
    intro n
    induction n with
    | zero =>
      intro pos hle st
      rw [vUnregShift_stop st pos (by simp only [NR_INTERRUPTS]; omega)]
    | succ n ihn =>
      intro pos hle st
      by_cases h : pos < NR_INTERRUPTS - 1
      · have h31 : pos < 31 := by simpa only [NR_INTERRUPTS] using h
        rw [vUnregShift_step st pos h, ihn (pos + 1) (by omega), syncVectSlot_irqVect]
        simp [List.length_set]
      · rw [vUnregShift_stop st pos h]
  exact key (31 - pos) pos le_rfl st

theorem vUnregShift_cntl_length (pos : Nat) (st : PicVectState) :
    (vUnregShift st pos).vectCntl.length = st.vectCntl.length := by
  have key : ∀ (n pos : Nat), 31 - pos ≤ n → ∀ (st : PicVectState),
      (vUnregShift st pos).vectCntl.length = st.vectCntl.length := by
    intro n
    induction n with
    | zero =>
      intro pos hle st
      rw [vUnregShift_stop st pos (by simp only [NR_INTERRUPTS]; omega)]
    | succ n ihn =>
      intro pos hle st
      by_cases h : pos < NR_INTERRUPTS - 1
      · have h31 : pos < 31 := by simpa only [NR_INTERRUPTS] using h
        rw [vUnregShift_step st pos h, ihn (pos + 1) (by omega), syncVectSlot_cntl_length]
      · rw [vUnregShift_stop st pos h]
  exact key (31 - pos) pos le_rfl st

theorem vUnregShift_addr_length (pos : Nat) (st : PicVectState) :
    (vUnregShift st pos).vectAddr.length = st.vectAddr.length := by
  have key : ∀ (n pos : Nat), 31 - pos ≤ n → ∀ (st : PicVectState),
      (vUnregShift st pos).vectAddr.length = st.vectAddr.length := by
    intro n
    induction n with
    | zero =>
      intro pos hle st
      rw [vUnregShift_stop st pos (by simp only [NR_INTERRUPTS]; omega)]
    | succ n ihn =>
      intro pos hle st
      by_cases h : pos < NR_INTERRUPTS - 1
      · have h31 : pos < 31 := by simpa only [NR_INTERRUPTS] using h
        rw [vUnregShift_step st pos h, ihn (pos + 1) (by omega), syncVectSlot_addr_length]
      · rw [vUnregShift_stop st pos h]
  exact key (31 - pos) pos le_rfl st

theorem vUnregShift_irqVect_getD (pos : Nat) (st : PicVectState)
    (hlen : st.irqVect.length = 32) (k : Nat) :
    (vUnregShift st pos).irqVect.getD k emptyVectRecord =
      if pos ≤ k ∧ k < 31 then st.irqVect.getD (k + 1) emptyVectRecord
      else st.irqVect.getD k emptyVectRecord := by
  have key : ∀ (n pos : Nat), 31 - pos ≤ n → ∀ (st : PicVectState),
      st.irqVect.length = 32 → ∀ (k : Nat),
      (vUnregShift st pos).irqVect.getD k emptyVectRecord =
        if pos ≤ k ∧ k < 31 then st.irqVect.getD (k + 1) emptyVectRecord
        else st.irqVect.getD k emptyVectRecord := by
    intro n
    induction n with
    | zero =>
      intro pos hle st hl k
      rw [vUnregShift_stop st pos (by simp only [NR_INTERRUPTS]; omega), if_neg (by omega)]
    | succ n ihn =>
      intro pos hle st hl k
      by_cases h : pos < NR_INTERRUPTS - 1
      · have h31 : pos < 31 := by simpa only [NR_INTERRUPTS] using h
        rw [vUnregShift_step st pos h]
        have hlen1 : (syncVectSlot
            { st with irqVect := st.irqVect.set pos (st.irqVect.getD (pos + 1) emptyVectRecord) }
            pos).irqVect.length = 32 := by
          rw [syncVectSlot_irqVect]
          simp only [List.length_set]
          exact hl
        rw [ihn (pos + 1) (by omega) _ hlen1 k, syncVectSlot_irqVect]
        by_cases hk1 : pos + 1 ≤ k ∧ k < 31
        · rw [if_pos hk1, if_pos (by omega)]
          exact getD_set_ne _ _ _ (by omega)
        · rw [if_neg hk1]
          by_cases hk2 : k = pos
          · subst hk2
            rw [if_pos (by omega)]
            exact getD_set_self _ _ _ (by omega)
          · rw [if_neg (by omega)]
            exact getD_set_ne _ _ _ (by omega)
      · have h31 : ¬ pos < 31 := by simpa only [NR_INTERRUPTS] using h
        rw [vUnregShift_stop st pos h, if_neg (by omega)]
  exact key (31 - pos) pos le_rfl st hlen k

/-! ### Characterisation of the register operations -/

theorem nvRegister_fail_arg (t : List isrNvRecord) (irq addr param priority : Nat)
    (h : NR_INTERRUPTS ≤ irq ∨ addr = 0) :
    pic_registerNonVectoredIrq t irq addr param priority = (t, -1) := by
  simp only [pic_registerNonVectoredIrq]
  rw [if_pos h]

theorem nvRegister_fail_scan (t : List isrNvRecord) (irq addr param priority : Nat)
    (h1 : ¬ (NR_INTERRUPTS ≤ irq ∨ addr = 0))
    (h2 : NR_INTERRUPTS ≤ t.findIdx (nvIrqPred (irq : Int)) ∨
          NR_INTERRUPTS ≤ t.findIdx (nvPrPred ((priority &&& 0x7F : Nat) : Int))) :
    pic_registerNonVectoredIrq t irq addr param priority = (t, -1) := by
  simp only [pic_registerNonVectoredIrq]
  rw [if_neg h1, if_pos h2]

theorem nvRegister_eq_success (t : List isrNvRecord) (irq addr param priority : Nat)
    (h1 : ¬ (NR_INTERRUPTS ≤ irq ∨ addr = 0))
    (h2 : ¬ (NR_INTERRUPTS ≤ t.findIdx (nvIrqPred (irq : Int)) ∨
             NR_INTERRUPTS ≤ t.findIdx (nvPrPred ((priority &&& 0x7F : Nat) : Int)))) :
    pic_registerNonVectoredIrq t irq addr param priority =
      ((nvRegShift t (t.findIdx (nvIrqPred (irq : Int)))
          (t.findIdx (nvPrPred ((priority &&& 0x7F : Nat) : Int)))).1.set
        (nvRegShift t (t.findIdx (nvIrqPred (irq : Int)))
          (t.findIdx (nvPrPred ((priority &&& 0x7F : Nat) : Int)))).2
        { irq := (irq : Int), isr := addr, param := param,
          priority := ((priority &&& 0x7F : Nat) : Int) },
       ((nvRegShift t (t.findIdx (nvIrqPred (irq : Int)))
          (t.findIdx (nvPrPred ((priority &&& 0x7F : Nat) : Int)))).2 : Int)) := by
  simp only [pic_registerNonVectoredIrq]
  rw [if_neg h1, if_neg h2]

theorem nvRegShift_spec (t : List isrNvRecord) (iP pP : Nat)
    (hlen : t.length = 32) (hip : iP < 32) (hpp : pP < 32) :
    (nvRegShift t iP pP).2 = regFinalPos iP pP ∧
    (nvRegShift t iP pP).1.length = 32 ∧
    ∀ k, k ≠ regFinalPos iP pP →
      (nvRegShift t iP pP).1.getD k emptyNvRecord =
        if pP < k ∧ k ≤ iP then t.getD (k - 1) emptyNvRecord
        else if iP ≤ k ∧ k < regFinalPos iP pP then t.getD (k + 1) emptyNvRecord
        else t.getD k emptyNvRecord := by
  rcases Nat.lt_trichotomy pP iP with hc | hc | hc
  · have hnc : ¬ iP < pP := by omega
    simp only [nvRegShift, regFinalPos, if_pos hc, if_neg hnc]
    refine ⟨by trivial, by rw [nvShiftDown_length]; exact hlen, ?_⟩
    intro k hk
    rw [nvShiftDown_getD pP t iP (by omega) k]
    by_cases hk1 : pP < k ∧ k ≤ iP
    · simp only [if_pos hk1]
    · simp only [if_neg hk1, if_neg (show ¬ (iP ≤ k ∧ k < pP) from by omega)]
  · subst hc
    have hnc : ¬ pP < pP := by omega
    simp only [nvRegShift, regFinalPos, if_neg hnc]
    refine ⟨by trivial, hlen, ?_⟩
    intro k hk
    rw [if_neg (by omega), if_neg (by omega)]
  · have hnc : ¬ pP < iP := by omega
    simp only [nvRegShift, regFinalPos, if_pos hc, if_neg hnc]
    refine ⟨by trivial, by rw [nvShiftUp_length]; exact hlen, ?_⟩
    intro k hk
    rw [nvShiftUp_getD (pP - 1) t iP (by omega) k]
    by_cases hk1 : iP ≤ k ∧ k < pP - 1
    · simp only [if_pos hk1, if_neg (show ¬ (pP < k ∧ k ≤ iP) from by omega)]
    · simp only [if_neg hk1, if_neg (show ¬ (pP < k ∧ k ≤ iP) from by omega)]

theorem nvRegister_char (t : List isrNvRecord) (irq addr param priority : Nat)
    (hi32 : irq < NR_INTERRUPTS) (ha : addr ≠ 0) (hlen : t.length = 32)
    (hip : t.findIdx (nvIrqPred (irq : Int)) < 32)
    (hpp : t.findIdx (nvPrPred ((priority &&& 0x7F : Nat) : Int)) < 32) :
    (pic_registerNonVectoredIrq t irq addr param priority).2 =
      ((regFinalPos (t.findIdx (nvIrqPred (irq : Int)))
        (t.findIdx (nvPrPred ((priority &&& 0x7F : Nat) : Int))) : Nat) : Int) ∧
    (pic_registerNonVectoredIrq t irq addr param priority).1.length = 32 ∧
    ∀ k, (pic_registerNonVectoredIrq t irq addr param priority).1.getD k emptyNvRecord =
      shiftedGetD emptyNvRecord t (t.findIdx (nvIrqPred (irq : Int)))
        (t.findIdx (nvPrPred ((priority &&& 0x7F : Nat) : Int)))
        { irq := (irq : Int), isr := addr, param := param,
          priority := ((priority &&& 0x7F : Nat) : Int) } k := by
  have h1 : ¬ (NR_INTERRUPTS ≤ irq ∨ addr = 0) := by
    push_neg
    exact ⟨by omega, ha⟩
  have h2 : ¬ (NR_INTERRUPTS ≤ t.findIdx (nvIrqPred (irq : Int)) ∨
               NR_INTERRUPTS ≤ t.findIdx (nvPrPred ((priority &&& 0x7F : Nat) : Int))) := by
    push_neg
    simp only [NR_INTERRUPTS]
    omega
  rw [nvRegister_eq_success t irq addr param priority h1 h2]
  obtain ⟨hret, hL, hGet⟩ := nvRegShift_spec t (t.findIdx (nvIrqPred (irq : Int)))
    (t.findIdx (nvPrPred ((priority &&& 0x7F : Nat) : Int))) hlen hip hpp
  have hfp32 : regFinalPos (t.findIdx (nvIrqPred (irq : Int)))
      (t.findIdx (nvPrPred ((priority &&& 0x7F : Nat) : Int))) < 32 := by
    simp only [regFinalPos]
    split <;> omega
  refine ⟨by rw [hret], by rw [List.length_set]; exact hL, ?_⟩
  intro k
  simp only [shiftedGetD]
  by_cases hk : k = regFinalPos (t.findIdx (nvIrqPred (irq : Int)))
      (t.findIdx (nvPrPred ((priority &&& 0x7F : Nat) : Int)))
  · rw [if_pos hk, hret, hk]
    exact getD_set_self _ _ _ (by omega)
  · rw [if_neg hk, hret]
    rw [getD_set_ne _ _ _ (by omega)]
    exact hGet k hk

theorem vRegister_fail_arg (st : PicVectState) (irq addr priority : Nat)
    (h : NR_INTERRUPTS ≤ irq ∨ addr = 0) :
    pic_registerVectorIrq st irq addr priority = (st, -1) := by
  simp only [pic_registerVectorIrq]
  rw [if_pos h]

theorem vRegister_fail_scan (st : PicVectState) (irq addr priority : Nat)
    (h1 : ¬ (NR_INTERRUPTS ≤ irq ∨ addr = 0))
    (h2 : NR_INTERRUPTS ≤ st.irqVect.findIdx (vIrqPred (irq : Int)) ∨
          NR_INTERRUPTS ≤ st.irqVect.findIdx (vPrPred ((priority &&& 0x7F : Nat) : Int))) :
    pic_registerVectorIrq st irq addr priority = (st, -1) := by
  simp only [pic_registerVectorIrq]
  rw [if_neg h1, if_pos h2]

theorem vRegister_eq_success (st : PicVectState) (irq addr priority : Nat)
    (h1 : ¬ (NR_INTERRUPTS ≤ irq ∨ addr = 0))
    (h2 : ¬ (NR_INTERRUPTS ≤ st.irqVect.findIdx (vIrqPred (irq : Int)) ∨
             NR_INTERRUPTS ≤ st.irqVect.findIdx (vPrPred ((priority &&& 0x7F : Nat) : Int)))) :
    pic_registerVectorIrq st irq addr priority =
      (vRegWrite
        (vRegShift st (st.irqVect.findIdx (vIrqPred (irq : Int)))
          (st.irqVect.findIdx (vPrPred ((priority &&& 0x7F : Nat) : Int)))).1
        irq addr ((priority &&& 0x7F : Nat) : Int)
        (vRegShift st (st.irqVect.findIdx (vIrqPred (irq : Int)))
          (st.irqVect.findIdx (vPrPred ((priority &&& 0x7F : Nat) : Int)))).2,
       ((vRegShift st (st.irqVect.findIdx (vIrqPred (irq : Int)))
          (st.irqVect.findIdx (vPrPred ((priority &&& 0x7F : Nat) : Int)))).2 : Int)) := by
  simp only [pic_registerVectorIrq]
  rw [if_neg h1, if_neg h2]

theorem vRegWrite_irqVect (st : PicVectState) (irq addr : Nat) (prior : Int) (p : Nat) :
    (vRegWrite st irq addr prior p).irqVect =
      st.irqVect.set p { irq := (irq : Int), isr := addr, priority := prior } := by
  simp only [vRegWrite]
  split_ifs <;> rfl

theorem vRegWrite_cntl_length (st : PicVectState) (irq addr : Nat) (prior : Int) (p : Nat) :
    (vRegWrite st irq addr prior p).vectCntl.length = st.vectCntl.length := by
  simp only [vRegWrite]
  split_ifs <;> simp [List.length_set]

theorem vRegWrite_addr_length (st : PicVectState) (irq addr : Nat) (prior : Int) (p : Nat) :
    (vRegWrite st irq addr prior p).vectAddr.length = st.vectAddr.length := by
  simp only [vRegWrite]
  split_ifs <;> simp [List.length_set]

theorem vRegWrite_cntl_getD (st : PicVectState) (irq addr : Nat) (prior : Int) (p : Nat)
    (hp : p < st.vectCntl.length) (hp16 : p < NR_VECTORS) :
    (vRegWrite st irq addr prior p).vectCntl.getD p 0 = irq ||| BM_VECT_ENABLE_BIT := by
  simp only [vRegWrite]
  rw [if_pos hp16, if_pos (Int.natCast_nonneg irq)]
  exact getD_set_self _ _ _ hp

theorem vRegWrite_addr_getD (st : PicVectState) (irq addr : Nat) (prior : Int) (p : Nat)
    (hp : p < st.vectAddr.length) (hp16 : p < NR_VECTORS) :
    (vRegWrite st irq addr prior p).vectAddr.getD p 0 = addr := by
  simp only [vRegWrite]
  rw [if_pos hp16, if_pos (Int.natCast_nonneg irq)]
  exact getD_set_self _ _ _ hp

theorem vRegShift_spec (st : PicVectState) (iP pP : Nat)
    (hlen : st.irqVect.length = 32) (hip : iP < 32) (hpp : pP < 32) :
    (vRegShift st iP pP).2 = regFinalPos iP pP ∧
    (vRegShift st iP pP).1.irqVect.length = 32 ∧
    (vRegShift st iP pP).1.vectCntl.length = st.vectCntl.length ∧
    (vRegShift st iP pP).1.vectAddr.length = st.vectAddr.length ∧
    ∀ k, k ≠ regFinalPos iP pP →
      (vRegShift st iP pP).1.irqVect.getD k emptyVectRecord =
        if pP < k ∧ k ≤ iP then st.irqVect.getD (k - 1) emptyVectRecord
        else if iP ≤ k ∧ k < regFinalPos iP pP then st.irqVect.getD (k + 1) emptyVectRecord
        else st.irqVect.getD k emptyVectRecord := by
  rcases Nat.lt_trichotomy pP iP with hc | hc | hc
  · have hnc : ¬ iP < pP := by omega
    simp only [vRegShift, regFinalPos, if_pos hc, if_neg hnc]
    refine ⟨by trivial, by rw [vShiftDown_irqVect_length]; exact hlen,
      vShiftDown_cntl_length _ _ _, vShiftDown_addr_length _ _ _, ?_⟩
    intro k hk
    rw [vShiftDown_irqVect_getD pP iP st (by omega) k]
    by_cases hk1 : pP < k ∧ k ≤ iP
    · simp only [if_pos hk1]
    · simp only [if_neg hk1, if_neg (show ¬ (iP ≤ k ∧ k < pP) from by omega)]
  · subst hc
    have hnc : ¬ pP < pP := by omega
    simp only [vRegShift, regFinalPos, if_neg hnc]
    refine ⟨by trivial, hlen, by trivial, by trivial, ?_⟩
    intro k hk
    rw [if_neg (by omega), if_neg (by omega)]
  · have hnc : ¬ pP < iP := by omega
    simp only [vRegShift, regFinalPos, if_pos hc, if_neg hnc]
    refine ⟨by trivial, by rw [vShiftUp_irqVect_length]; exact hlen,
      vShiftUp_cntl_length _ _ _, vShiftUp_addr_length _ _ _, ?_⟩
    intro k hk
    rw [vShiftUp_irqVect_getD (pP - 1) iP st (by omega) k]
    by_cases hk1 : iP ≤ k ∧ k < pP - 1
    · simp only [if_pos hk1, if_neg (show ¬ (pP < k ∧ k ≤ iP) from by omega)]
    · simp only [if_neg hk1, if_neg (show ¬ (pP < k ∧ k ≤ iP) from by omega)]

theorem vRegister_char (st : PicVectState) (irq addr priority : Nat)
    (hi32 : irq < NR_INTERRUPTS) (ha : addr ≠ 0) (hlen : st.irqVect.length = 32)
    (hip : st.irqVect.findIdx (vIrqPred (irq : Int)) < 32)
    (hpp : st.irqVect.findIdx (vPrPred ((priority &&& 0x7F : Nat) : Int)) < 32) :
    (pic_registerVectorIrq st irq addr priority).2 =
      ((regFinalPos (st.irqVect.findIdx (vIrqPred (irq : Int)))
        (st.irqVect.findIdx (vPrPred ((priority &&& 0x7F : Nat) : Int))) : Nat) : Int) ∧
    (pic_registerVectorIrq st irq addr priority).1.irqVect.length = 32 ∧
    ∀ k, (pic_registerVectorIrq st irq addr priority).1.irqVect.getD k emptyVectRecord =
      shiftedGetD emptyVectRecord st.irqVect (st.irqVect.findIdx (vIrqPred (irq : Int)))
        (st.irqVect.findIdx (vPrPred ((priority &&& 0x7F : Nat) : Int)))
        { irq := (irq : Int), isr := addr,
          priority := ((priority &&& 0x7F : Nat) : Int) } k := by
  have h1 : ¬ (NR_INTERRUPTS ≤ irq ∨ addr = 0) := by
    push_neg
    exact ⟨by omega, ha⟩
  have h2 : ¬ (NR_INTERRUPTS ≤ st.irqVect.findIdx (vIrqPred (irq : Int)) ∨
               NR_INTERRUPTS ≤ st.irqVect.findIdx (vPrPred ((priority &&& 0x7F : Nat) : Int))) := by
    push_neg
    simp only [NR_INTERRUPTS]
    omega
  rw [vRegister_eq_success st irq addr priority h1 h2]
  obtain ⟨hret, hL, _, _, hGet⟩ := vRegShift_spec st (st.irqVect.findIdx (vIrqPred (irq : Int)))
    (st.irqVect.findIdx (vPrPred ((priority &&& 0x7F : Nat) : Int))) hlen hip hpp
  have hfp32 : regFinalPos (st.irqVect.findIdx (vIrqPred (irq : Int)))
      (st.irqVect.findIdx (vPrPred ((priority &&& 0x7F : Nat) : Int))) < 32 := by
    simp only [regFinalPos]
    split <;> omega
  refine ⟨by rw [hret], ?_, ?_⟩
  · rw [vRegWrite_irqVect, List.length_set]
    exact hL
  · intro k
    rw [vRegWrite_irqVect, hret]
    simp only [shiftedGetD]
    by_cases hk : k = regFinalPos (st.irqVect.findIdx (vIrqPred (irq : Int)))
        (st.irqVect.findIdx (vPrPred ((priority &&& 0x7F : Nat) : Int)))
    · rw [if_pos hk, hk]
      exact getD_set_self _ _ _ (by omega)
    · rw [if_neg hk]
      rw [getD_set_ne _ _ _ (by omega)]
      exact hGet k hk

/-! ### Characterisation of the unregister operations -/

theorem nvUnreg_fail_irq (t : List isrNvRecord) (irq : Nat) (h : NR_INTERRUPTS ≤ irq) :
    pic_unregisterNonVectoredIrq t irq = t := by
  simp only [pic_unregisterNonVectoredIrq]
  rw [if_pos h]

theorem nvUnreg_fail_notfound (t : List isrNvRecord) (irq : Nat)
    (h1 : ¬ NR_INTERRUPTS ≤ irq)
    (h2 : NR_INTERRUPTS ≤ t.findIdx (fun e => decide (e.irq = (irq : Int)))) :
    pic_unregisterNonVectoredIrq t irq = t := by
  simp only [pic_unregisterNonVectoredIrq]
  rw [if_neg h1, if_pos h2]

theorem nvUnreg_eq_found (t : List isrNvRecord) (irq : Nat)
    (h1 : ¬ NR_INTERRUPTS ≤ irq)
    (h2 : ¬ NR_INTERRUPTS ≤ t.findIdx (fun e => decide (e.irq = (irq : Int)))) :
    pic_unregisterNonVectoredIrq t irq =
      (nvUnregShift t (t.findIdx (fun e => decide (e.irq = (irq : Int))))).set
        (NR_INTERRUPTS - 1) emptyNvRecord := by
  simp only [pic_unregisterNonVectoredIrq]
  rw [if_neg h1, if_neg h2]

theorem vUnreg_fail_irq (st : PicVectState) (irq : Nat) (h : NR_INTERRUPTS ≤ irq) :
    pic_unregisterVectorIrq st irq = st := by
  simp only [pic_unregisterVectorIrq]
  rw [if_pos h]

theorem vUnreg_fail_notfound (st : PicVectState) (irq : Nat)
    (h1 : ¬ NR_INTERRUPTS ≤ irq)
    (h2 : NR_INTERRUPTS ≤ st.irqVect.findIdx (fun e => decide (e.irq = (irq : Int)))) :
    pic_unregisterVectorIrq st irq = st := by
  simp only [pic_unregisterVectorIrq]
  rw [if_neg h1, if_pos h2]

theorem vUnreg_eq_found (st : PicVectState) (irq : Nat)
    (h1 : ¬ NR_INTERRUPTS ≤ irq)
    (h2 : ¬ NR_INTERRUPTS ≤ st.irqVect.findIdx (fun e => decide (e.irq = (irq : Int)))) :
    pic_unregisterVectorIrq st irq =
      { vUnregShift st (st.irqVect.findIdx (fun e => decide (e.irq = (irq : Int)))) with
        irqVect :=
          (vUnregShift st
            (st.irqVect.findIdx (fun e => decide (e.irq = (irq : Int))))).irqVect.set
            (NR_INTERRUPTS - 1) emptyVectRecord } := by
  simp only [pic_unregisterVectorIrq]
  rw [if_neg h1, if_neg h2]

/-! ### Helper facts about the initial tables -/

theorem initNvTable_length : initNvTable.length = 32 := by
  unfold initNvTable
  simp [NR_INTERRUPTS]

theorem initNvTable_getD (i : Nat) (h : i < 32) :
    initNvTable.getD i emptyNvRecord = emptyNvRecord := by
  unfold initNvTable
  exact getD_replicate _ _ (by simp only [NR_INTERRUPTS]; omega)

theorem initNv_findIdx_irq (x : Int) : initNvTable.findIdx (nvIrqPred x) = 0 := by
  apply findIdx_eq_of_getD emptyNvRecord (by rw [initNvTable_length]; omega)
  · rw [initNvTable_getD 0 (by omega)]
    simp [nvIrqPred, emptyNvRecord]
  · intro j hj
    exact absurd hj (Nat.not_lt_zero j)

theorem initNv_findIdx_pr (pr : Int) : initNvTable.findIdx (nvPrPred pr) = 0 := by
  apply findIdx_eq_of_getD emptyNvRecord (by rw [initNvTable_length]; omega)
  · rw [initNvTable_getD 0 (by omega)]
    simp [nvPrPred, emptyNvRecord]
  · intro j hj
    exact absurd hj (Nat.not_lt_zero j)

theorem initVect_irqVect_length : pic_init_vect.irqVect.length = 32 := by
  unfold pic_init_vect
  simp [NR_INTERRUPTS]

theorem initVect_irqVect_getD (i : Nat) (h : i < 32) :
    pic_init_vect.irqVect.getD i emptyVectRecord = emptyVectRecord := by
  unfold pic_init_vect
  exact getD_replicate _ _ (by simp only [NR_INTERRUPTS]; omega)

theorem initVect_findIdx_irq (x : Int) : pic_init_vect.irqVect.findIdx (vIrqPred x) = 0 := by
  apply findIdx_eq_of_getD emptyVectRecord (by rw [initVect_irqVect_length]; omega)
  · rw [initVect_irqVect_getD 0 (by omega)]
    simp [vIrqPred, emptyVectRecord]
  · intro j hj
    exact absurd hj (Nat.not_lt_zero j)

theorem initVect_findIdx_pr (pr : Int) : pic_init_vect.irqVect.findIdx (vPrPred pr) = 0 := by
  apply findIdx_eq_of_getD emptyVectRecord (by rw [initVect_irqVect_length]; omega)
  · rw [initVect_irqVect_getD 0 (by omega)]
    simp [vPrPred, emptyVectRecord]
  · intro j hj
    exact absurd hj (Nat.not_lt_zero j)

/-! ### Claim C1 -/

/-- C1 (code bug): the claim says `pic_unregisterAllVectorIrqs` resets all 32
logical table entries, but the loop in the code only runs over
`i < NR_VECTORS` (16).  On a state whose entry 16 is occupied, the entry
survives the call, while entries 0..15 and all 16 hardware slots are cleared
as documented. -/
theorem unregAllVect_misses_entry16 :
    ((pic_unregisterAllVectorIrqs c1State).irqVect.getD 16 emptyVectRecord).irq = 5 ∧
    emptyVectRecord.irq = -1 ∧
    (∀ i, i < NR_VECTORS →
      (pic_unregisterAllVectorIrqs c1State).irqVect.getD i emptyVectRecord = emptyVectRecord ∧
      (pic_unregisterAllVectorIrqs c1State).vectCntl.getD i 0 = 0 ∧
      (pic_unregisterAllVectorIrqs c1State).vectAddr.getD i 0 = irq_dummyISR) := by
  decide

/-! ### Claim C2 -/

unseal nvDispatchScan in
/-- C2 (code bug): the dispatch routine only invokes the dummy handler when the
scan ran through all 32 entries without meeting a sentinel.  On the empty
(all-sentinel) table with IRQ 0 pending, no entry matches and the sentinel is
met at index 0, yet no dummy call is made; on a full table with a matching
entry, the handler is invoked and the dummy is invoked as well. -/
theorem nvDispatch_dummy_mismatch :
    picIrqHandlerNonVectored initNvTable 1 = [] ∧
    picIrqHandlerNonVectored c2FullTable 1 = [(100, 0), (irq_dummyNvISR, 0)] := by
  decide

/-! ### Claim C6 -/

/-- C6: registration with an out-of-range line (≥ 32) or a `NULL` handler
returns `-1` and leaves the non-vectored table, respectively the whole
vectored state (logical table and both hardware register banks), unchanged. -/
theorem register_invalid_args_no_mutation (t : List isrNvRecord) (st : PicVectState)
    (irq addr param priority : Nat) (h : NR_INTERRUPTS ≤ irq ∨ addr = 0) :
    pic_registerNonVectoredIrq t irq addr param priority = (t, -1) ∧
    pic_registerVectorIrq st irq addr priority = (st, -1) ∧
    (pic_registerNonVectoredIrq t irq addr param priority).2 < 0 ∧
    (pic_registerVectorIrq st irq addr priority).2 < 0 := by
  refine ⟨nvRegister_fail_arg t irq addr param priority h,
          vRegister_fail_arg st irq addr priority h, ?_, ?_⟩
  · rw [nvRegister_fail_arg t irq addr param priority h]
    norm_num
  · rw [vRegister_fail_arg st irq addr priority h]
    norm_num

/-- Witness for C6 at `irq = 32` (and at `addr = 0` via the disjunction). -/
theorem register_invalid_args_no_mutation_witness :
    (NR_INTERRUPTS ≤ 32 ∨ (7 : Nat) = 0) ∧
    (pic_registerNonVectoredIrq initNvTable 32 7 0 0 = (initNvTable, -1) ∧
     pic_registerVectorIrq pic_init_vect 32 7 0 = (pic_init_vect, -1) ∧
     (pic_registerNonVectoredIrq initNvTable 32 7 0 0).2 < 0 ∧
     (pic_registerVectorIrq pic_init_vect 32 7 0).2 < 0) :=
  ⟨Or.inl (by decide),
   register_invalid_args_no_mutation initNvTable pic_init_vect 32 7 0 0 (Or.inl (by decide))⟩

/-! ### Claim C9 -/

/-- C9: the priority stored (and used for comparison) by both registration
functions is the argument masked to its low 7 bits, hence always in `[0,127]`;
in particular priority 200 is stored as 72. -/
theorem priority_masked_7bit (p : Nat) :
    ((pic_registerNonVectoredIrq initNvTable 5 0x1000 0 p).1.getD 0 emptyNvRecord).priority
        = ((p &&& 0x7F : Nat) : Int) ∧
    ((pic_registerVectorIrq pic_init_vect 5 0x1000 p).1.irqVect.getD 0 emptyVectRecord).priority
        = ((p &&& 0x7F : Nat) : Int) ∧
    (0 : Int) ≤ ((p &&& 0x7F : Nat) : Int) ∧
    ((p &&& 0x7F : Nat) : Int) ≤ 127 ∧
    ((200 &&& 0x7F : Nat) : Int) = 72 := by
  have hmask : (p &&& 0x7F : Nat) ≤ 127 := Nat.and_le_right
  obtain ⟨-, -, hget⟩ := nvRegister_char initNvTable 5 0x1000 0 p
    (by simp only [NR_INTERRUPTS]; omega) (by omega) initNvTable_length
    (by rw [initNv_findIdx_irq]; omega) (by rw [initNv_findIdx_pr]; omega)
  obtain ⟨-, -, hvget⟩ := vRegister_char pic_init_vect 5 0x1000 p
    (by simp only [NR_INTERRUPTS]; omega) (by omega) initVect_irqVect_length
    (by rw [initVect_findIdx_irq]; omega) (by rw [initVect_findIdx_pr]; omega)
  refine ⟨?_, ?_, Int.natCast_nonneg _, by exact_mod_cast hmask, by decide⟩
  · rw [hget 0, initNv_findIdx_irq, initNv_findIdx_pr]
    simp [shiftedGetD, regFinalPos]
  · rw [hvget 0, initVect_findIdx_irq, initVect_findIdx_pr]
    simp [shiftedGetD, regFinalPos]

/-- Witness for C9 at `p = 200`. -/
theorem priority_masked_7bit_witness :
    ((pic_registerNonVectoredIrq initNvTable 5 0x1000 0 200).1.getD 0 emptyNvRecord).priority
        = ((200 &&& 0x7F : Nat) : Int) ∧
    ((pic_registerVectorIrq pic_init_vect 5 0x1000 200).1.irqVect.getD 0 emptyVectRecord).priority
        = ((200 &&& 0x7F : Nat) : Int) ∧
    (0 : Int) ≤ ((200 &&& 0x7F : Nat) : Int) ∧
    ((200 &&& 0x7F : Nat) : Int) ≤ 127 ∧
    ((200 &&& 0x7F : Nat) : Int) = 72 :=
  priority_masked_7bit 200

/-! ### Correctness of the relocation copy loops -/

theorem copyFwdLoop_untouched (n : Nat) : ∀ (m : Nat → Nat) (src dst x : Nat),
    (x < dst ∨ dst + n ≤ x) → copyFwdLoop m src dst n x = m x := by
  induction n with
  | zero => intro m src dst x h; rfl
  | succ n ih =>
    intro m src dst x h
    simp only [copyFwdLoop]
    rw [ih _ _ _ _ (by omega)]
    exact Function.update_noteq (by omega) _ _

theorem copyFwdLoop_spec (n : Nat) : ∀ (m : Nat → Nat) (src dst : Nat),
    (dst < src ∨ src + n ≤ dst) → ∀ k, k < n →
    copyFwdLoop m src dst n (dst + k) = m (src + k) := by
  induction n with
  | zero => intro m src dst h k hk; omega
  | succ n ih =>
    intro m src dst h k hk
    simp only [copyFwdLoop]
    rcases Nat.eq_zero_or_pos k with hk0 | hkpos
    · subst hk0
      rw [copyFwdLoop_untouched n _ _ _ _ (by omega)]
      simp
    · obtain ⟨k', rfl⟩ : ∃ k', k = k' + 1 := ⟨k - 1, by omega⟩
      have hmain := ih (Function.update m dst (m src)) (src + 1) (dst + 1) (by omega) k' (by omega)
      rw [show dst + (k' + 1) = dst + 1 + k' by omega, hmain,
          Function.update_noteq (by omega), show src + 1 + k' = src + (k' + 1) by omega]

theorem copyBwdLoop_untouched (n : Nat) : ∀ (m : Nat → Nat) (sh dh x : Nat),
    (dh < x ∨ x + n ≤ dh) → copyBwdLoop m sh dh n x = m x := by
  induction n with
  | zero => intro m sh dh x h; rfl
  | succ n ih =>
    intro m sh dh x h
    simp only [copyBwdLoop]
    rw [ih _ _ _ _ (by omega)]
    exact Function.update_noteq (by omega) _ _

theorem copyBwdLoop_spec (n : Nat) : ∀ (m : Nat → Nat) (src dst : Nat),
    src < dst → ∀ k, k < n →
    copyBwdLoop m (src + n - 1) (dst + n - 1) n (dst + k) = m (src + k) := by
  induction n with
  | zero => intro m src dst h k hk; omega
  | succ n ih =>
    intro m src dst h k hk
    rw [show src + (n + 1) - 1 = src + n by omega, show dst + (n + 1) - 1 = dst + n by omega]
    simp only [copyBwdLoop]
    by_cases hk2 : k = n
    · rw [hk2]
      rw [copyBwdLoop_untouched n _ _ _ _ (by omega)]
      exact Function.update_same _ _ _
    · have hmain := ih (Function.update m (dst + n) (m (src + n))) src dst h k (by omega)
      rw [hmain, Function.update_noteq (by omega)]

theorem copy_vectors_swap (m : Nat → Nat) (a b dst : Nat) :
    copy_vectors m a b dst = copy_vectors m b a dst := by
  simp only [copy_vectors]
  rcases lt_trichotomy a b with h | h | h
  · simp only [if_pos (le_of_lt h), if_neg (not_le.mpr h)]
  · subst h
    rfl
  · simp only [if_neg (not_le.mpr h), if_pos (le_of_lt h)]

theorem copy_vectors_core (m : Nat → Nat) (src en dst k : Nat)
    (hse : src ≤ en) (hfit : dst + (en - src) < 2 ^ 30) (hk : k < en - src) :
    copy_vectors m src en dst (dst + k) = m (src + k) := by
  simp only [copy_vectors, if_pos hse]
  by_cases h0 : dst = src
  · rw [if_pos h0, h0]
  · rw [if_neg h0]
    have hguard : ¬ (MAX_ADDRESS - 4 * dst) / 4 < en - src := by
      simp only [MAX_ADDRESS]
      rw [not_lt, Nat.le_div_iff_mul_le (by omega)]
      omega
    rw [if_neg hguard]
    by_cases hbr : dst < src ∨ en ≤ dst
    · rw [if_pos hbr]
      exact copyFwdLoop_spec (en - src) m src dst (by omega) k hk
    · rw [if_neg hbr]
      have hsd : src < dst := by omega
      have hrw : en - 1 = src + (en - src) - 1 := by omega
      have hrw2 : dst + (en - src) - 1 = dst + (en - src) - 1 := rfl
      rw [hrw]
      exact copyBwdLoop_spec (en - src) m src dst hsd k hk

/-! ### Claim C5 -/

/-- C5: for every source block (with the two link symbols in either order) and
every destination constant, under the address-space fitting condition that
makes the overflow guard pass, `copy_vectors` leaves the destination block
word-for-word equal to the pre-copy source image — the result a naive forward
copy of the saved source image would produce.  This covers the non-overlapping
configurations (low-to-high branch) and the destination-inside-source
configuration (high-to-low branch) alike. -/
theorem copy_vectors_correct (m : Nat → Nat) (vectors_start vectors_end dst_start k : Nat)
    (hfit : dst_start + (max vectors_start vectors_end - min vectors_start vectors_end) < 2 ^ 30)
    (hk : k < max vectors_start vectors_end - min vectors_start vectors_end) :
    copy_vectors m vectors_start vectors_end dst_start (dst_start + k)
      = m (min vectors_start vectors_end + k) := by
  rcases le_total vectors_start vectors_end with h | h
  · rw [Nat.min_eq_left h, Nat.max_eq_right h] at hfit hk
    rw [Nat.min_eq_left h]
    exact copy_vectors_core m vectors_start vectors_end dst_start k h hfit hk
  · rw [Nat.min_eq_right h, Nat.max_eq_left h] at hfit hk
    rw [Nat.min_eq_right h, copy_vectors_swap m vectors_start vectors_end dst_start]
    exact copy_vectors_core m vectors_end vectors_start dst_start k h hfit hk

/-- Witness for C5 at an overlapping configuration: source words [4,8), the
destination block [6,10) starts inside the source, so the high-to-low branch
runs; word 3 of the destination equals word 3 of the pre-copy source. -/
theorem copy_vectors_correct_witness :
    (6 + (max 4 8 - min 4 8) < 2 ^ 30 ∧ 3 < max 4 8 - min 4 8) ∧
    copy_vectors (fun x => 3 * x + 1) 4 8 6 (6 + 3) = (fun x => 3 * x + 1) (min 4 8 + 3) :=
  ⟨⟨by decide, by decide⟩,
   copy_vectors_correct (fun x => 3 * x + 1) 4 8 6 3 (by decide) (by decide)⟩

/-! ### Claim C7 -/

/-- C7: unregistering line `irq` when it is present (its scan position is
below 32) removes exactly that entry: entries before the position are
untouched, every subsequent entry shifts up by one index, the vacated last
slot is reset to the sentinel/dummy state, and dense-then-empty is preserved;
when `irq ≥ 32` or the line is not present, the call is a no-op (for the
vectored registry the whole state, hardware slots included, is unchanged). -/
theorem unregister_correct (t : List isrNvRecord) (st : PicVectState) (irq : Nat)
    (hlen : t.length = 32) (hvlen : st.irqVect.length = 32) :
    ((irq < 32 ∧ t.findIdx (fun e => decide (e.irq = (irq : Int))) < 32) →
      (∀ k, k < t.findIdx (fun e => decide (e.irq = (irq : Int))) →
        (pic_unregisterNonVectoredIrq t irq).getD k emptyNvRecord = t.getD k emptyNvRecord) ∧
      (∀ k, t.findIdx (fun e => decide (e.irq = (irq : Int))) ≤ k → k < 31 →
        (pic_unregisterNonVectoredIrq t irq).getD k emptyNvRecord
          = t.getD (k + 1) emptyNvRecord) ∧
      (pic_unregisterNonVectoredIrq t irq).getD 31 emptyNvRecord = emptyNvRecord ∧
      (nvDense t → nvDense (pic_unregisterNonVectoredIrq t irq))) ∧
    ((32 ≤ irq ∨ 32 ≤ t.findIdx (fun e => decide (e.irq = (irq : Int)))) →
      pic_unregisterNonVectoredIrq t irq = t) ∧
    ((irq < 32 ∧ st.irqVect.findIdx (fun e => decide (e.irq = (irq : Int))) < 32) →
      (∀ k, k < st.irqVect.findIdx (fun e => decide (e.irq = (irq : Int))) →
        (pic_unregisterVectorIrq st irq).irqVect.getD k emptyVectRecord
          = st.irqVect.getD k emptyVectRecord) ∧
      (∀ k, st.irqVect.findIdx (fun e => decide (e.irq = (irq : Int))) ≤ k → k < 31 →
        (pic_unregisterVectorIrq st irq).irqVect.getD k emptyVectRecord
          = st.irqVect.getD (k + 1) emptyVectRecord) ∧
      (pic_unregisterVectorIrq st irq).irqVect.getD 31 emptyVectRecord = emptyVectRecord ∧
      (vDense st.irqVect → vDense (pic_unregisterVectorIrq st irq).irqVect)) ∧
    ((32 ≤ irq ∨ 32 ≤ st.irqVect.findIdx (fun e => decide (e.irq = (irq : Int)))) →
      pic_unregisterVectorIrq st irq = st) := by
  have h31 : NR_INTERRUPTS - 1 = 31 := by decide
  refine ⟨?_, ?_, ?_, ?_⟩
  · rintro ⟨hirq, hpos⟩
    have heq := nvUnreg_eq_found t irq (by simp only [NR_INTERRUPTS]; omega)
      (by simp only [NR_INTERRUPTS]; omega)
    rw [h31] at heq
    have hshlen : (nvUnregShift t (t.findIdx (fun e => decide (e.irq = (irq : Int))))).length
        = 32 := by rw [nvUnregShift_length]; exact hlen
    have hfact : ∀ k, k < 31 →
        (pic_unregisterNonVectoredIrq t irq).getD k emptyNvRecord =
          if t.findIdx (fun e => decide (e.irq = (irq : Int))) ≤ k then
            t.getD (k + 1) emptyNvRecord
          else t.getD k emptyNvRecord := by
      intro k hk
      rw [heq, getD_set_ne _ _ _ (by omega),
        nvUnregShift_getD t _ hlen k]
      by_cases hc : t.findIdx (fun e => decide (e.irq = (irq : Int))) ≤ k
      · rw [if_pos ⟨hc, hk⟩, if_pos hc]
      · rw [if_neg (by omega), if_neg hc]
    have h31fact : (pic_unregisterNonVectoredIrq t irq).getD 31 emptyNvRecord
        = emptyNvRecord := by
      rw [heq]
      exact getD_set_self _ _ _ (by omega)
    refine ⟨?_, ?_, h31fact, ?_⟩
    · intro k hk
      rw [hfact k (by omega), if_neg (by omega)]
    · intro k hk1 hk2
      rw [hfact k hk2, if_pos hk1]
    · intro hd i j hij hj32 hocc
      by_cases hj31 : j = 31
      · rw [hj31, h31fact] at hocc
        simp [emptyNvRecord] at hocc
      · rw [hfact j (by omega)] at hocc
        by_cases hcj : t.findIdx (fun e => decide (e.irq = (irq : Int))) ≤ j
        · rw [if_pos hcj] at hocc
          by_cases hci : t.findIdx (fun e => decide (e.irq = (irq : Int))) ≤ i
          · rw [hfact i (by omega), if_pos hci]
            exact hd (i + 1) (j + 1) (by omega) (by omega) hocc
          · rw [hfact i (by omega), if_neg hci]
            exact hd i (j + 1) (by omega) (by omega) hocc
        · rw [if_neg hcj] at hocc
          rw [hfact i (by omega), if_neg (by omega)]
          exact hd i j hij (by omega) hocc
  · intro h
    rcases h with h | h
    · exact nvUnreg_fail_irq t irq (by simp only [NR_INTERRUPTS]; omega)
    · by_cases hirq : NR_INTERRUPTS ≤ irq
      · exact nvUnreg_fail_irq t irq hirq
      · exact nvUnreg_fail_notfound t irq hirq (by simp only [NR_INTERRUPTS]; omega)
  · rintro ⟨hirq, hpos⟩
    have heq := vUnreg_eq_found st irq (by simp only [NR_INTERRUPTS]; omega)
      (by simp only [NR_INTERRUPTS]; omega)
    rw [h31] at heq
    have hshlen : (vUnregShift st
        (st.irqVect.findIdx (fun e => decide (e.irq = (irq : Int))))).irqVect.length
        = 32 := by rw [vUnregShift_irqVect_length]; exact hvlen
    have hfact : ∀ k, k < 31 →
        (pic_unregisterVectorIrq st irq).irqVect.getD k emptyVectRecord =
          if st.irqVect.findIdx (fun e => decide (e.irq = (irq : Int))) ≤ k then
            st.irqVect.getD (k + 1) emptyVectRecord
          else st.irqVect.getD k emptyVectRecord := by
      intro k hk
      rw [heq]
      show ((vUnregShift st _).irqVect.set 31 emptyVectRecord).getD k emptyVectRecord = _
      rw [getD_set_ne _ _ _ (by omega), vUnregShift_irqVect_getD _ st hvlen k]
      by_cases hc : st.irqVect.findIdx (fun e => decide (e.irq = (irq : Int))) ≤ k
      · rw [if_pos ⟨hc, hk⟩, if_pos hc]
      · rw [if_neg (by omega), if_neg hc]
    have h31fact : (pic_unregisterVectorIrq st irq).irqVect.getD 31 emptyVectRecord
        = emptyVectRecord := by
      rw [heq]
      show ((vUnregShift st _).irqVect.set 31 emptyVectRecord).getD 31 emptyVectRecord = _
      exact getD_set_self _ _ _ (by omega)
    refine ⟨?_, ?_, h31fact, ?_⟩
    · intro k hk
      rw [hfact k (by omega), if_neg (by omega)]
    · intro k hk1 hk2
      rw [hfact k hk2, if_pos hk1]
    · intro hd i j hij hj32 hocc
      by_cases hj31 : j = 31
      · rw [hj31, h31fact] at hocc
        simp [emptyVectRecord] at hocc
      · rw [hfact j (by omega)] at hocc
        by_cases hcj : st.irqVect.findIdx (fun e => decide (e.irq = (irq : Int))) ≤ j
        · rw [if_pos hcj] at hocc
          by_cases hci : st.irqVect.findIdx (fun e => decide (e.irq = (irq : Int))) ≤ i
          · rw [hfact i (by omega), if_pos hci]
            exact hd (i + 1) (j + 1) (by omega) (by omega) hocc
          · rw [hfact i (by omega), if_neg hci]
            exact hd i (j + 1) (by omega) (by omega) hocc
        · rw [if_neg hcj] at hocc
          rw [hfact i (by omega), if_neg (by omega)]
          exact hd i j hij (by omega) hocc
  · intro h
    rcases h with h | h
    · exact vUnreg_fail_irq st irq (by simp only [NR_INTERRUPTS]; omega)
    · by_cases hirq : NR_INTERRUPTS ≤ irq
      · exact vUnreg_fail_irq st irq hirq
      · exact vUnreg_fail_notfound st irq hirq (by simp only [NR_INTERRUPTS]; omega)

unseal nvUnregShift in
/-- Witness for C7: a table with line 5 at index 0; after unregistering, the
last slot is back to the sentinel state. -/
theorem unregister_correct_witness :
    (c7NvTable.length = 32 ∧ c7VectState.irqVect.length = 32) ∧
    ((5 : Nat) < 32 ∧ c7NvTable.findIdx (fun e => decide (e.irq = ((5 : Nat) : Int))) < 32) ∧
    (pic_unregisterNonVectoredIrq c7NvTable 5).getD 31 emptyNvRecord = emptyNvRecord := by
  have h := unregister_correct c7NvTable c7VectState 5 (by decide) (by decide)
  exact ⟨⟨by decide, by decide⟩, ⟨by decide, by decide⟩,
    (h.1 ⟨by decide, by decide⟩).2.2.1⟩

/-! ### The hardware mirror invariant (claim C3) -/

theorem syncVectSlot_eq_occ (st : PicVectState) (i : Nat) (hi : i < NR_VECTORS)
    (h : 0 ≤ (st.irqVect.getD i emptyVectRecord).irq) :
    syncVectSlot st i =
      { st with
        vectCntl := st.vectCntl.set i
          ((st.irqVect.getD i emptyVectRecord).irq.toNat ||| BM_VECT_ENABLE_BIT)
        vectAddr := st.vectAddr.set i (st.irqVect.getD i emptyVectRecord).isr } := by
  simp only [syncVectSlot]
  rw [if_pos hi, if_pos h]

theorem syncVectSlot_eq_empty (st : PicVectState) (i : Nat) (hi : i < NR_VECTORS)
    (h : ¬ 0 ≤ (st.irqVect.getD i emptyVectRecord).irq) :
    syncVectSlot st i =
      { st with
        vectCntl := st.vectCntl.set i 0
        vectAddr := st.vectAddr.set i irq_dummyISR } := by
  simp only [syncVectSlot]
  rw [if_pos hi, if_neg h]

theorem syncVectSlot_eq_ge (st : PicVectState) (i : Nat) (hi : ¬ i < NR_VECTORS) :
    syncVectSlot st i = st := by
  simp only [syncVectSlot]
  rw [if_neg hi]

theorem syncVectSlot_mirrorAt_self (st : PicVectState) (i : Nat)
    (hi : i < NR_VECTORS) (hc : st.vectCntl.length = 16) (ha : st.vectAddr.length = 16) :
    mirrorAt (syncVectSlot st i) i := by
  have hi16 : i < 16 := by simpa only [NR_VECTORS] using hi
  by_cases h : 0 ≤ (st.irqVect.getD i emptyVectRecord).irq
  · rw [syncVectSlot_eq_occ st i hi h]
    unfold mirrorAt
    rw [if_pos h]
    exact ⟨getD_set_self _ _ _ (by omega), getD_set_self _ _ _ (by omega)⟩
  · rw [syncVectSlot_eq_empty st i hi h]
    unfold mirrorAt
    rw [if_neg h]
    exact ⟨getD_set_self _ _ _ (by omega), getD_set_self _ _ _ (by omega)⟩

theorem mirrorAt_table_set_ne (st : PicVectState) (i : Nat) (r : isrVectRecord) (k : Nat)
    (hk : k ≠ i) (h : mirrorAt st k) :
    mirrorAt { st with irqVect := st.irqVect.set i r } k := by
  unfold mirrorAt at h ⊢
  rw [getD_set_ne _ _ _ (by omega)]
  exact h

theorem syncVectSlot_mirrorAt_ne (st : PicVectState) (i k : Nat) (hk : k ≠ i)
    (h : mirrorAt st k) : mirrorAt (syncVectSlot st i) k := by
  by_cases hi : i < NR_VECTORS
  · by_cases hocc : 0 ≤ (st.irqVect.getD i emptyVectRecord).irq
    · rw [syncVectSlot_eq_occ st i hi hocc]
      unfold mirrorAt at h ⊢
      rw [getD_set_ne _ _ _ (by omega), getD_set_ne _ _ _ (by omega)]
      exact h
    · rw [syncVectSlot_eq_empty st i hi hocc]
      unfold mirrorAt at h ⊢
      rw [getD_set_ne _ _ _ (by omega), getD_set_ne _ _ _ (by omega)]
      exact h
  · rw [syncVectSlot_eq_ge st i hi]
    exact h

/-- vWF is preserved by one loop iteration: set table entry `i`, then
re-synchronise slot `i`. -/
theorem iterStep_vWF (st : PicVectState) (i : Nat) (r : isrVectRecord) (hwf : vWF st) :
    vWF (syncVectSlot { st with irqVect := st.irqVect.set i r } i) := by
  obtain ⟨hl, hc, ha, hm⟩ := hwf
  refine ⟨?_, ?_, ?_, ?_⟩
  · rw [syncVectSlot_irqVect]
    simp only [List.length_set]
    exact hl
  · rw [syncVectSlot_cntl_length]
    exact hc
  · rw [syncVectSlot_addr_length]
    exact ha
  · intro k hk
    by_cases hki : k = i
    · rw [hki]
      exact syncVectSlot_mirrorAt_self _ i (by rwa [← hki]) hc ha
    · exact syncVectSlot_mirrorAt_ne _ i k hki (mirrorAt_table_set_ne st i r k hki (hm k hk))

theorem vShiftDown_vWF (prPos : Nat) (i : Nat) : ∀ (st : PicVectState),
    vWF st → vWF (vShiftDown prPos st i) := by
  induction i using Nat.strong_induction_on with
  | _ i ih =>
    intro st hwf
    by_cases h : prPos < i
    · rw [vShiftDown_step prPos st i h]
      exact ih (i - 1) (by omega) _ (iterStep_vWF st i _ hwf)
    · rw [vShiftDown_stop prPos st i h]
      exact hwf

theorem vShiftUp_vWF (prPos : Nat) (i : Nat) (st : PicVectState) (hwf : vWF st) :
    vWF (vShiftUp prPos st i) := by
  have key : ∀ (n i : Nat), prPos - i ≤ n → ∀ (st : PicVectState),
      vWF st → vWF (vShiftUp prPos st i) := by
    intro n
    induction n with
    | zero =>
      intro i hle st hwf
      rw [vShiftUp_stop prPos st i (by omega)]
      exact hwf
    | succ n ihn =>
      intro i hle st hwf
      by_cases h : i < prPos
      · rw [vShiftUp_step prPos st i h]
        exact ihn (i + 1) (by omega) _ (iterStep_vWF st i _ hwf)
      · rw [vShiftUp_stop prPos st i h]
        exact hwf
  exact key (prPos - i) i le_rfl st hwf

theorem vUnregShift_vWF (pos : Nat) (st : PicVectState) (hwf : vWF st) :
    vWF (vUnregShift st pos) := by
  have key : ∀ (n pos : Nat), 31 - pos ≤ n → ∀ (st : PicVectState),
      vWF st → vWF (vUnregShift st pos) := by
    intro n
    induction n with
    | zero =>
      intro pos hle st hwf
      rw [vUnregShift_stop st pos (by simp only [NR_INTERRUPTS]; omega)]
      exact hwf
    | succ n ihn =>
      intro pos hle st hwf
      by_cases h : pos < NR_INTERRUPTS - 1
      · have h31 : pos < 31 := by simpa only [NR_INTERRUPTS] using h
        rw [vUnregShift_step st pos h]
        exact ihn (pos + 1) (by omega) _ (iterStep_vWF st pos _ hwf)
      · rw [vUnregShift_stop st pos h]
        exact hwf
  exact key (31 - pos) pos le_rfl st hwf

theorem vRegShift_vWF (st : PicVectState) (iP pP : Nat) (hwf : vWF st) :
    vWF (vRegShift st iP pP).1 := by
  simp only [vRegShift]
  by_cases h1 : pP < iP
  · rw [if_pos h1]
    by_cases h2 : iP < pP
    · omega
    · rw [if_neg h2]
      exact vShiftDown_vWF pP iP st hwf
  · rw [if_neg h1]
    by_cases h2 : iP < pP
    · rw [if_pos h2]
      exact vShiftUp_vWF (pP - 1) iP st hwf
    · rw [if_neg h2]
      exact hwf

theorem vRegWrite_vWF (st : PicVectState) (irq addr : Nat) (prior : Int) (p : Nat)
    (hwf : vWF st) : vWF (vRegWrite st irq addr prior p) := by
  obtain ⟨hl, hc, ha, hm⟩ := hwf
  by_cases hp : p < NR_VECTORS
  · have hp16 : p < 16 := by simpa only [NR_VECTORS] using hp
    simp only [vRegWrite]
    rw [if_pos hp, if_pos (Int.natCast_nonneg irq)]
    refine ⟨by simp only [List.length_set]; exact hl,
      by simp only [List.length_set]; exact hc,
      by simp only [List.length_set]; exact ha, ?_⟩
    intro k hk
    by_cases hkp : k = p
    · rw [hkp]
      unfold mirrorAt
      rw [getD_set_self _ _ _ (by omega)]
      rw [if_pos (Int.natCast_nonneg irq)]
      constructor
      · rw [getD_set_self _ _ _ (by omega)]
        rw [Int.toNat_natCast]
      · rw [getD_set_self _ _ _ (by omega)]
    · unfold mirrorAt
      rw [getD_set_ne _ _ _ (by omega), getD_set_ne _ _ _ (by omega),
          getD_set_ne _ _ _ (by omega)]
      exact hm k hk
  · simp only [vRegWrite]
    rw [if_neg hp]
    refine ⟨by simp only [List.length_set]; exact hl, hc, ha, ?_⟩
    intro k hk
    have hkp : k ≠ p := by
      simp only [NR_VECTORS] at hk hp
      omega
    exact mirrorAt_table_set_ne st p _ k hkp (hm k hk)

theorem vRegister_vWF (st : PicVectState) (irq addr priority : Nat) (hwf : vWF st) :
    vWF (pic_registerVectorIrq st irq addr priority).1 := by
  by_cases h1 : NR_INTERRUPTS ≤ irq ∨ addr = 0
  · rw [vRegister_fail_arg st irq addr priority h1]
    exact hwf
  · by_cases h2 : NR_INTERRUPTS ≤ st.irqVect.findIdx (vIrqPred (irq : Int)) ∨
        NR_INTERRUPTS ≤ st.irqVect.findIdx (vPrPred ((priority &&& 0x7F : Nat) : Int))
    · rw [vRegister_fail_scan st irq addr priority h1 h2]
      exact hwf
    · rw [vRegister_eq_success st irq addr priority h1 h2]
      exact vRegWrite_vWF _ irq addr _ _ (vRegShift_vWF st _ _ hwf)

theorem vUnregister_vWF (st : PicVectState) (irq : Nat) (hwf : vWF st) :
    vWF (pic_unregisterVectorIrq st irq) := by
  by_cases h1 : NR_INTERRUPTS ≤ irq
  · rw [vUnreg_fail_irq st irq h1]
    exact hwf
  · by_cases h2 : NR_INTERRUPTS ≤ st.irqVect.findIdx (fun e => decide (e.irq = (irq : Int)))
    · rw [vUnreg_fail_notfound st irq h1 h2]
      exact hwf
    · rw [vUnreg_eq_found st irq h1 h2]
      obtain ⟨hl, hc, ha, hm⟩ :=
        vUnregShift_vWF (st.irqVect.findIdx (fun e => decide (e.irq = (irq : Int)))) st hwf
      refine ⟨by simp only [List.length_set]; exact hl, hc, ha, ?_⟩
      intro k hk
      have hk31 : k ≠ NR_INTERRUPTS - 1 := by
        simp only [NR_VECTORS] at hk
        simp only [NR_INTERRUPTS]
        omega
      exact mirrorAt_table_set_ne _ _ _ k hk31 (hm k hk)

theorem init_vWF : vWF pic_init_vect := by
  refine ⟨initVect_irqVect_length, ?_, ?_, ?_⟩
  · unfold pic_init_vect
    simp [NR_VECTORS]
  · unfold pic_init_vect
    simp [NR_VECTORS]
  · intro k hk
    have hk16 : k < 16 := by simpa only [NR_VECTORS] using hk
    unfold mirrorAt
    rw [initVect_irqVect_getD k (by omega)]
    rw [if_neg (by norm_num [emptyVectRecord])]
    constructor
    · show (pic_init_vect.vectCntl).getD k 0 = 0
      unfold pic_init_vect
      exact getD_replicate _ _ (by simpa only [NR_VECTORS] using hk16)
    · show (pic_init_vect.vectAddr).getD k 0 = irq_dummyISR
      unfold pic_init_vect
      exact getD_replicate _ _ (by simpa only [NR_VECTORS] using hk16)

theorem applyVectOps_vWF (ops : List VectOp) : ∀ (st : PicVectState),
    vWF st → vWF (applyVectOps st ops) := by
  induction ops with
  | nil => exact fun st h => h
  | cons op rest ih =>
    intro st h
    have hstep : vWF (applyVectOp st op) := by
      cases op with
      | reg irq addr priority => exact vRegister_vWF st irq addr priority h
      | unreg irq => exact vUnregister_vWF st irq h
    exact ih _ hstep

/-! ### Claim C3 -/

/-- C3: starting from the initialised controller, after any sequence of
`pic_registerVectorIrq` / `pic_unregisterVectorIrq` calls every hardware slot
`k < 16` mirrors logical entry `k`: an occupied entry is reflected as
`line | BM_VECT_ENABLE_BIT` in `VICVECTCNTLn[k]` and its handler address in
`VICVECTADDRn[k]`; an empty entry as a cleared control register and the dummy
handler address. -/
theorem vect_hardware_mirror_invariant (ops : List VectOp) :
    slotsMirror (applyVectOps pic_init_vect ops) :=
  (applyVectOps_vWF ops pic_init_vect init_vWF).2.2.2

/-- Witness for C3 on a concrete register/register/unregister sequence. -/
theorem vect_hardware_mirror_invariant_witness :
    slotsMirror (applyVectOps pic_init_vect
      [VectOp.reg 5 777 10, VectOp.reg 9 888 30, VectOp.unreg 5]) :=
  vect_hardware_mirror_invariant [VectOp.reg 5 777 10, VectOp.reg 9 888 30, VectOp.unreg 5]

/-! ### Claim C10 -/

theorem vRegShift_cntl_length (st : PicVectState) (iP pP : Nat) :
    (vRegShift st iP pP).1.vectCntl.length = st.vectCntl.length := by
  simp only [vRegShift]
  split_ifs <;>
    simp only [vShiftUp_cntl_length, vShiftDown_cntl_length]

theorem vRegShift_addr_length (st : PicVectState) (iP pP : Nat) :
    (vRegShift st iP pP).1.vectAddr.length = st.vectAddr.length := by
  simp only [vRegShift]
  split_ifs <;>
    simp only [vShiftUp_addr_length, vShiftDown_addr_length]

/-- C10: a successful `pic_registerVectorIrq` whose returned position is below
16 always leaves that hardware slot enabled: its control register is written
with the line number or-ed with the enable bit (bit 5 set) and its address
register with the handler address — the branch writing a disabled/dummy slot
at the final position is unreachable, since the `uint8_t` line was already
validated below 32, so `irq >= 0` always holds. -/
theorem vector_slot_enabled_on_register (st : PicVectState) (irq addr priority : Nat)
    (hc : st.vectCntl.length = 16) (ha : st.vectAddr.length = 16)
    (hsucc : 0 ≤ (pic_registerVectorIrq st irq addr priority).2)
    (hp16 : (pic_registerVectorIrq st irq addr priority).2.toNat < 16) :
    (pic_registerVectorIrq st irq addr priority).1.vectCntl.getD
        (pic_registerVectorIrq st irq addr priority).2.toNat 0
      = irq ||| BM_VECT_ENABLE_BIT ∧
    (pic_registerVectorIrq st irq addr priority).1.vectAddr.getD
        (pic_registerVectorIrq st irq addr priority).2.toNat 0 = addr ∧
    Nat.testBit (irq ||| BM_VECT_ENABLE_BIT) 5 = true := by
  have htb : Nat.testBit (irq ||| BM_VECT_ENABLE_BIT) 5 = true := by
    rw [Nat.testBit_or]
    have h32 : Nat.testBit BM_VECT_ENABLE_BIT 5 = true := by decide
    rw [h32]
    simp
  by_cases h1 : NR_INTERRUPTS ≤ irq ∨ addr = 0
  · rw [vRegister_fail_arg st irq addr priority h1] at hsucc
    norm_num at hsucc
  · by_cases h2 : NR_INTERRUPTS ≤ st.irqVect.findIdx (vIrqPred (irq : Int)) ∨
        NR_INTERRUPTS ≤ st.irqVect.findIdx (vPrPred ((priority &&& 0x7F : Nat) : Int))
    · rw [vRegister_fail_scan st irq addr priority h1 h2] at hsucc
      norm_num at hsucc
    · rw [vRegister_eq_success st irq addr priority h1 h2] at hp16 ⊢
      dsimp only at hp16 ⊢
      rw [Int.toNat_natCast] at hp16 ⊢
      have hp16' : (vRegShift st (st.irqVect.findIdx (vIrqPred (irq : Int)))
          (st.irqVect.findIdx (vPrPred ((priority &&& 0x7F : Nat) : Int)))).2 < NR_VECTORS := by
        simpa only [NR_VECTORS] using hp16
      refine ⟨?_, ?_, htb⟩
      · exact vRegWrite_cntl_getD _ irq addr _ _ (by rw [vRegShift_cntl_length]; omega) hp16'
      · exact vRegWrite_addr_getD _ irq addr _ _ (by rw [vRegShift_addr_length]; omega) hp16'

unseal vShiftDown vShiftUp in
/-- Witness for C10: registering line 5 into the freshly initialised
controller lands at position 0 and enables slot 0. -/
theorem vector_slot_enabled_on_register_witness :
    (pic_init_vect.vectCntl.length = 16 ∧ pic_init_vect.vectAddr.length = 16 ∧
     0 ≤ (pic_registerVectorIrq pic_init_vect 5 777 10).2 ∧
     (pic_registerVectorIrq pic_init_vect 5 777 10).2.toNat < 16) ∧
    (pic_registerVectorIrq pic_init_vect 5 777 10).1.vectCntl.getD
        (pic_registerVectorIrq pic_init_vect 5 777 10).2.toNat 0
      = 5 ||| BM_VECT_ENABLE_BIT ∧
    (pic_registerVectorIrq pic_init_vect 5 777 10).1.vectAddr.getD
        (pic_registerVectorIrq pic_init_vect 5 777 10).2.toNat 0 = 777 ∧
    Nat.testBit (5 ||| BM_VECT_ENABLE_BIT) 5 = true :=
  ⟨⟨by decide, by decide, by decide, by decide⟩,
   vector_slot_enabled_on_register pic_init_vect 5 777 10
     (by decide) (by decide) (by decide) (by decide)⟩

/-! ### Re-registration (claim C8) -/

/-- Core pointwise argument for re-registration: if line `L` occupies exactly
position `iP` of a dense table and the new entry `e` carries `L`, then the
shifted table has the same occupancy pattern and carries `L` exactly at the
final insertion position. -/
theorem rereg_core {α : Type} (irqOf : α → Int) (d : α) (t : List α) (e : α)
    (L : Int) (c : Nat) (iP pP : Nat)
    (hdense : ∀ i, i < 32 → (0 ≤ irqOf (t.getD i d) ↔ i < c))
    (hL : ∀ i, i < 32 → (irqOf (t.getD i d) = L ↔ i = iP))
    (hL0 : 0 ≤ L)
    (hiP : iP < 32) (hpP : pP < 32) (hpPc : pP ≤ c)
    (he : irqOf e = L) :
    (∀ k, k < 32 → (0 ≤ irqOf (shiftedGetD d t iP pP e k) ↔ 0 ≤ irqOf (t.getD k d))) ∧
    (∀ k, k < 32 → (irqOf (shiftedGetD d t iP pP e k) = L ↔ k = regFinalPos iP pP)) := by
  have hiPc : iP < c := by
    have h1 : irqOf (t.getD iP d) = L := (hL iP hiP).mpr rfl
    have h2 : 0 ≤ irqOf (t.getD iP d) := by rw [h1]; exact hL0
    exact (hdense iP hiP).mp h2
  have hfPcases : (iP < pP ∧ regFinalPos iP pP = pP - 1) ∨
      (pP ≤ iP ∧ regFinalPos iP pP = pP) := by
    simp only [regFinalPos]
    by_cases h : iP < pP
    · left; exact ⟨h, if_pos h⟩
    · right; exact ⟨by omega, if_neg h⟩
  have hfPc : regFinalPos iP pP < c := by
    rcases hfPcases with ⟨h1, h2⟩ | ⟨h1, h2⟩ <;> omega
  constructor
  · intro k hk
    unfold shiftedGetD
    by_cases hk1 : k = regFinalPos iP pP
    · rw [if_pos hk1, he]
      constructor
      · intro _
        exact (hdense k hk).mpr (by omega)
      · intro _
        exact hL0
    · rw [if_neg hk1]
      by_cases hk2 : pP < k ∧ k ≤ iP
      · rw [if_pos hk2]
        rw [hdense (k - 1) (by omega), hdense k hk]
        constructor <;> intro <;> omega
      · rw [if_neg hk2]
        by_cases hk3 : iP ≤ k ∧ k < regFinalPos iP pP
        · rw [if_pos hk3]
          rw [hdense (k + 1) (by rcases hfPcases with ⟨h1, h2⟩ | ⟨h1, h2⟩ <;> omega),
            hdense k hk]
          constructor <;> intro <;>
            rcases hfPcases with ⟨h1, h2⟩ | ⟨h1, h2⟩ <;> omega
        · rw [if_neg hk3]
  · intro k hk
    unfold shiftedGetD
    by_cases hk1 : k = regFinalPos iP pP
    · rw [if_pos hk1, he]
      simp [hk1]
    · rw [if_neg hk1]
      by_cases hk2 : pP < k ∧ k ≤ iP
      · rw [if_pos hk2]
        rw [hL (k - 1) (by omega)]
        constructor
        · intro h
          rcases hfPcases with ⟨h1, h2⟩ | ⟨h1, h2⟩ <;> omega
        · intro h
          exact absurd h hk1
      · rw [if_neg hk2]
        by_cases hk3 : iP ≤ k ∧ k < regFinalPos iP pP
        · rw [if_pos hk3]
          rw [hL (k + 1) (by rcases hfPcases with ⟨h1, h2⟩ | ⟨h1, h2⟩ <;> omega)]
          constructor
          · intro h
            rcases hfPcases with ⟨h1, h2⟩ | ⟨h1, h2⟩ <;> omega
          · intro h
            exact absurd h hk1
        · rw [if_neg hk3, hL k hk]
          constructor
          · intro h
            rcases hfPcases with ⟨h1, h2⟩ | ⟨h1, h2⟩ <;> omega
          · intro h
            exact absurd h hk1

theorem nv_findIdx_irq_of_unique (t : List isrNvRecord) (irq : Nat) (c posL : Nat)
    (hlen : t.length = 32)
    (hdense : ∀ i, i < 32 → (0 ≤ (t.getD i emptyNvRecord).irq ↔ i < c))
    (hL : ∀ i, i < 32 → ((t.getD i emptyNvRecord).irq = (irq : Int) ↔ i = posL))
    (hposL : posL < 32) :
    t.findIdx (nvIrqPred (irq : Int)) = posL := by
  have hposLc : posL < c := by
    have h1 : (t.getD posL emptyNvRecord).irq = (irq : Int) := (hL posL hposL).mpr rfl
    have h2 : 0 ≤ (t.getD posL emptyNvRecord).irq := by
      rw [h1]; exact Int.natCast_nonneg irq
    exact (hdense posL hposL).mp h2
  apply findIdx_eq_of_getD emptyNvRecord (by omega)
  · unfold nvIrqPred
    rw [(hL posL hposL).mpr rfl]
    simp
  · intro j hj
    unfold nvIrqPred
    have hocc : 0 ≤ (t.getD j emptyNvRecord).irq := (hdense j (by omega)).mpr (by omega)
    have hne : (t.getD j emptyNvRecord).irq ≠ (irq : Int) := fun h =>
      absurd ((hL j (by omega)).mp h) (by omega)
    simp only [Bool.or_eq_false_iff, decide_eq_false_iff_not]
    exact ⟨by omega, hne⟩

theorem v_findIdx_irq_of_unique (t : List isrVectRecord) (irq : Nat) (c posL : Nat)
    (hlen : t.length = 32)
    (hdense : ∀ i, i < 32 → (0 ≤ (t.getD i emptyVectRecord).irq ↔ i < c))
    (hL : ∀ i, i < 32 → ((t.getD i emptyVectRecord).irq = (irq : Int) ↔ i = posL))
    (hposL : posL < 32) :
    t.findIdx (vIrqPred (irq : Int)) = posL := by
  have hposLc : posL < c := by
    have h1 : (t.getD posL emptyVectRecord).irq = (irq : Int) := (hL posL hposL).mpr rfl
    have h2 : 0 ≤ (t.getD posL emptyVectRecord).irq := by
      rw [h1]; exact Int.natCast_nonneg irq
    exact (hdense posL hposL).mp h2
  apply findIdx_eq_of_getD emptyVectRecord (by omega)
  · unfold vIrqPred
    rw [(hL posL hposL).mpr rfl]
    simp
  · intro j hj
    unfold vIrqPred
    have hocc : 0 ≤ (t.getD j emptyVectRecord).irq := (hdense j (by omega)).mpr (by omega)
    have hne : (t.getD j emptyVectRecord).irq ≠ (irq : Int) := fun h =>
      absurd ((hL j (by omega)).mp h) (by omega)
    simp only [Bool.or_eq_false_iff, decide_eq_false_iff_not]
    exact ⟨by omega, hne⟩

theorem nv_findIdx_pr_le (t : List isrNvRecord) (prior : Int) (c : Nat)
    (hlen : t.length = 32) (hc : c ≤ 32)
    (hpdense : ∀ i, i < 32 → (0 ≤ (t.getD i emptyNvRecord).priority ↔ i < c))
    (hf32 : t.findIdx (nvPrPred prior) < 32) :
    t.findIdx (nvPrPred prior) ≤ c := by
  by_cases hceq : c = 32
  · omega
  · apply findIdx_le_of_pred emptyNvRecord (by omega)
    unfold nvPrPred
    have : ¬ 0 ≤ (t.getD c emptyNvRecord).priority := by
      rw [hpdense c (by omega)]
      omega
    simp only [Bool.or_eq_true, decide_eq_true_eq]
    left
    omega

theorem v_findIdx_pr_le (t : List isrVectRecord) (prior : Int) (c : Nat)
    (hlen : t.length = 32) (hc : c ≤ 32)
    (hpdense : ∀ i, i < 32 → (0 ≤ (t.getD i emptyVectRecord).priority ↔ i < c))
    (hf32 : t.findIdx (vPrPred prior) < 32) :
    t.findIdx (vPrPred prior) ≤ c := by
  by_cases hceq : c = 32
  · omega
  · apply findIdx_le_of_pred emptyVectRecord (by omega)
    unfold vPrPred
    have : ¬ 0 ≤ (t.getD c emptyVectRecord).priority := by
      rw [hpdense c (by omega)]
      omega
    simp only [Bool.or_eq_true, decide_eq_true_eq]
    left
    omega

/-! ### Claim C8 -/

/-- C8: on a dense table in which line `irq` is registered exactly at
position `posL`, a successful re-registration writes the new
handler/context/masked-priority as the entry at the returned index, the line
occupies exactly that one position afterwards (no duplicate entry), and the
occupancy pattern — hence the number of occupied slots — is unchanged.  Both
registries are covered. -/
theorem reregister_no_duplicate
    (t : List isrNvRecord) (st : PicVectState)
    (irq addr param priority : Nat) (c posL cv posLv : Nat)
    (hirq : irq < 32) (haddr : addr ≠ 0)
    (hlen : t.length = 32) (hvlen : st.irqVect.length = 32)
    (hc : c ≤ 32) (hcv : cv ≤ 32)
    (hdense : ∀ i, i < 32 → (0 ≤ (t.getD i emptyNvRecord).irq ↔ i < c))
    (hpdense : ∀ i, i < 32 → (0 ≤ (t.getD i emptyNvRecord).priority ↔ i < c))
    (hLpos : ∀ i, i < 32 → ((t.getD i emptyNvRecord).irq = (irq : Int) ↔ i = posL))
    (hposL : posL < 32)
    (hvdense : ∀ i, i < 32 → (0 ≤ (st.irqVect.getD i emptyVectRecord).irq ↔ i < cv))
    (hvpdense : ∀ i, i < 32 → (0 ≤ (st.irqVect.getD i emptyVectRecord).priority ↔ i < cv))
    (hvLpos : ∀ i, i < 32 →
      ((st.irqVect.getD i emptyVectRecord).irq = (irq : Int) ↔ i = posLv))
    (hposLv : posLv < 32)
    (hsucc : 0 ≤ (pic_registerNonVectoredIrq t irq addr param priority).2)
    (hvsucc : 0 ≤ (pic_registerVectorIrq st irq addr priority).2) :
    ((pic_registerNonVectoredIrq t irq addr param priority).1.getD
        (pic_registerNonVectoredIrq t irq addr param priority).2.toNat emptyNvRecord
      = { irq := (irq : Int), isr := addr, param := param,
          priority := ((priority &&& 0x7F : Nat) : Int) }) ∧
    (∀ i, i < 32 →
      (((pic_registerNonVectoredIrq t irq addr param priority).1.getD i
          emptyNvRecord).irq = (irq : Int)
        ↔ i = (pic_registerNonVectoredIrq t irq addr param priority).2.toNat)) ∧
    (∀ i, i < 32 →
      (0 ≤ ((pic_registerNonVectoredIrq t irq addr param priority).1.getD i
          emptyNvRecord).irq
        ↔ 0 ≤ (t.getD i emptyNvRecord).irq)) ∧
    ((pic_registerVectorIrq st irq addr priority).1.irqVect.getD
        (pic_registerVectorIrq st irq addr priority).2.toNat emptyVectRecord
      = { irq := (irq : Int), isr := addr,
          priority := ((priority &&& 0x7F : Nat) : Int) }) ∧
    (∀ i, i < 32 →
      (((pic_registerVectorIrq st irq addr priority).1.irqVect.getD i
          emptyVectRecord).irq = (irq : Int)
        ↔ i = (pic_registerVectorIrq st irq addr priority).2.toNat)) ∧
    (∀ i, i < 32 →
      (0 ≤ ((pic_registerVectorIrq st irq addr priority).1.irqVect.getD i
          emptyVectRecord).irq
        ↔ 0 ≤ (st.irqVect.getD i emptyVectRecord).irq)) := by
  have h1 : ¬ (NR_INTERRUPTS ≤ irq ∨ addr = 0) := by
    push_neg
    exact ⟨by simp only [NR_INTERRUPTS]; omega, haddr⟩
  -- non-vectored half
  have h2 : ¬ (NR_INTERRUPTS ≤ t.findIdx (nvIrqPred (irq : Int)) ∨
      NR_INTERRUPTS ≤ t.findIdx (nvPrPred ((priority &&& 0x7F : Nat) : Int))) := by
    intro hcon
    rw [nvRegister_fail_scan t irq addr param priority h1 hcon] at hsucc
    norm_num at hsucc
  have hip : t.findIdx (nvIrqPred (irq : Int)) < 32 := by
    push_neg at h2
    simpa only [NR_INTERRUPTS, not_le] using h2.1
  have hpp : t.findIdx (nvPrPred ((priority &&& 0x7F : Nat) : Int)) < 32 := by
    push_neg at h2
    simpa only [NR_INTERRUPTS, not_le] using h2.2
  obtain ⟨hret, hlen2, hget⟩ := nvRegister_char t irq addr param priority
    (by simp only [NR_INTERRUPTS]; omega) haddr hlen hip hpp
  have hiPeq : t.findIdx (nvIrqPred (irq : Int)) = posL :=
    nv_findIdx_irq_of_unique t irq c posL hlen hdense hLpos hposL
  have hpPle : t.findIdx (nvPrPred ((priority &&& 0x7F : Nat) : Int)) ≤ c :=
    nv_findIdx_pr_le t _ c hlen hc hpdense hpp
  rw [hiPeq] at hret hget
  obtain ⟨hcore1, hcore2⟩ := rereg_core isrNvRecord.irq emptyNvRecord t
    { irq := (irq : Int), isr := addr, param := param,
      priority := ((priority &&& 0x7F : Nat) : Int) }
    (irq : Int) c posL (t.findIdx (nvPrPred ((priority &&& 0x7F : Nat) : Int)))
    hdense hLpos (Int.natCast_nonneg irq) hposL hpp hpPle rfl
  have hretN : (pic_registerNonVectoredIrq t irq addr param priority).2.toNat
      = regFinalPos posL (t.findIdx (nvPrPred ((priority &&& 0x7F : Nat) : Int))) := by
    rw [hret, Int.toNat_natCast]
  -- vectored half
  have hv2 : ¬ (NR_INTERRUPTS ≤ st.irqVect.findIdx (vIrqPred (irq : Int)) ∨
      NR_INTERRUPTS ≤ st.irqVect.findIdx (vPrPred ((priority &&& 0x7F : Nat) : Int))) := by
    intro hcon
    rw [vRegister_fail_scan st irq addr priority h1 hcon] at hvsucc
    norm_num at hvsucc
  have hvip : st.irqVect.findIdx (vIrqPred (irq : Int)) < 32 := by
    push_neg at hv2
    simpa only [NR_INTERRUPTS, not_le] using hv2.1
  have hvpp : st.irqVect.findIdx (vPrPred ((priority &&& 0x7F : Nat) : Int)) < 32 := by
    push_neg at hv2
    simpa only [NR_INTERRUPTS, not_le] using hv2.2
  obtain ⟨hvret, hvlen2, hvget⟩ := vRegister_char st irq addr priority
    (by simp only [NR_INTERRUPTS]; omega) haddr hvlen hvip hvpp
  have hviPeq : st.irqVect.findIdx (vIrqPred (irq : Int)) = posLv :=
    v_findIdx_irq_of_unique st.irqVect irq cv posLv hvlen hvdense hvLpos hposLv
  have hvpPle : st.irqVect.findIdx (vPrPred ((priority &&& 0x7F : Nat) : Int)) ≤ cv :=
    v_findIdx_pr_le st.irqVect _ cv hvlen hcv hvpdense hvpp
  rw [hviPeq] at hvret hvget
  obtain ⟨hvcore1, hvcore2⟩ := rereg_core isrVectRecord.irq emptyVectRecord st.irqVect
    { irq := (irq : Int), isr := addr,
      priority := ((priority &&& 0x7F : Nat) : Int) }
    (irq : Int) cv posLv (st.irqVect.findIdx (vPrPred ((priority &&& 0x7F : Nat) : Int)))
    hvdense hvLpos (Int.natCast_nonneg irq) hposLv hvpp hvpPle rfl
  have hvretN : (pic_registerVectorIrq st irq addr priority).2.toNat
      = regFinalPos posLv (st.irqVect.findIdx (vPrPred ((priority &&& 0x7F : Nat) : Int))) := by
    rw [hvret, Int.toNat_natCast]
  refine ⟨?_, ?_, ?_, ?_, ?_, ?_⟩
  · rw [hretN, hget]
    unfold shiftedGetD
    rw [if_pos rfl]
  · intro i hi
    rw [hretN, hget i]
    exact hcore2 i hi
  · intro i hi
    rw [hget i]
    exact hcore1 i hi
  · rw [hvretN, hvget]
    unfold shiftedGetD
    rw [if_pos rfl]
  · intro i hi
    rw [hvretN, hvget i]
    exact hvcore2 i hi
  · intro i hi
    rw [hvget i]
    exact hvcore1 i hi

unseal nvShiftDown nvShiftUp vShiftDown vShiftUp in
/-- Witness for C8: re-registering line 5 (present at position 0 of a
one-entry table) with a new handler and priority 20. -/
theorem reregister_no_duplicate_witness :
    (0 ≤ (pic_registerNonVectoredIrq c7NvTable 5 333 0 20).2 ∧
     0 ≤ (pic_registerVectorIrq c7VectState 5 333 20).2) ∧
    (pic_registerNonVectoredIrq c7NvTable 5 333 0 20).1.getD
        (pic_registerNonVectoredIrq c7NvTable 5 333 0 20).2.toNat emptyNvRecord
      = { irq := ((5 : Nat) : Int), isr := 333, param := 0,
          priority := ((20 &&& 0x7F : Nat) : Int) } := by
  have h := reregister_no_duplicate c7NvTable c7VectState 5 333 0 20 1 0 1 0
    (by decide) (by decide) (by decide) (by decide) (by decide) (by decide)
    (by decide) (by decide) (by decide) (by decide)
    (by decide) (by decide) (by decide) (by decide) (by decide) (by decide)
  exact ⟨⟨by decide, by decide⟩, h.1⟩

/-! ### Sorted-stable invariant for fresh-line registration sequences (C4) -/

theorem lineIdx_append_lt (done : List (Int × Int)) (x : Int) (p : Int × Int)
    (h : lineIdx done x < done.length) :
    lineIdx (done ++ [p]) x = lineIdx done x ∧
    (done ++ [p]).getD (lineIdx done x) (0, 0) = done.getD (lineIdx done x) (0, 0) := by
  constructor
  · apply findIdx_eq_of_getD (0, 0) (by rw [List.length_append]; omega)
    · rw [List.getD_append _ _ _ _ h]
      exact findIdx_pred_true (0, 0) h
    · intro j hj
      rw [List.getD_append _ _ _ _ (by omega)]
      exact findIdx_pred_false (0, 0) hj
  · exact List.getD_append _ _ _ _ h

theorem lineIdx_append_fresh (done : List (Int × Int)) (L q : Int)
    (hfresh : ∀ k, k < done.length → (done.getD k (0, 0)).1 ≠ L) :
    lineIdx (done ++ [(L, q)]) L = done.length := by
  apply findIdx_eq_of_getD (0, 0) (by rw [List.length_append]; simp)
  · rw [List.getD_append_right _ _ _ _ (le_refl _)]
    simp
  · intro j hj
    rw [List.getD_append _ _ _ _ hj]
    simp only [decide_eq_false_iff_not]
    exact hfresh j hj

theorem getD_append_last (done : List (Int × Int)) (p : Int × Int) :
    (done ++ [p]).getD done.length (0, 0) = p := by
  rw [List.getD_append_right _ _ _ _ (le_refl _)]
  simp

theorem sortInvStep {α : Type} (irqOf prioOf : α → Int) (d : α)
    (done : List (Int × Int)) (t t' : List α) (e : α) (L q : Int) (f : Nat)
    (inv : SortInv irqOf prioOf d done t)
    (hfresh : ∀ k, k < done.length → (done.getD k (0, 0)).1 ≠ L)
    (hL0 : 0 ≤ L) (hq0 : 0 ≤ q)
    (hm : done.length < 32)
    (he1 : irqOf e = L) (he2 : prioOf e = q)
    (hf_le : f ≤ done.length)
    (hf1 : ∀ k, k < f → q ≤ prioOf (t.getD k d))
    (hf2 : prioOf (t.getD f d) < q)
    (hlen2 : t'.length = 32)
    (ht1 : ∀ k, k < f → t'.getD k d = t.getD k d)
    (ht2 : t'.getD f d = e)
    (ht3 : ∀ k, f < k → k ≤ done.length → t'.getD k d = t.getD (k - 1) d)
    (ht4 : ∀ k, done.length < k → t'.getD k d = t.getD k d) :
    SortInv irqOf prioOf d (done ++ [(L, q)]) t' := by
  obtain ⟨len1, nle1, dense1, pdense1, sorted1, lines1, stable1⟩ := inv
  have hlen' : (done ++ [(L, q)]).length = done.length + 1 := by
    rw [List.length_append]
    rfl
  -- the priority of every post-`f` entry is strictly below `q`
  have hC : ∀ k, f < k → k < 32 → prioOf (t'.getD k d) < q := by
    intro k hfk hk
    by_cases hkm : k ≤ done.length
    · rw [ht3 k hfk hkm]
      have := sorted1 f (k - 1) (by omega) (by omega)
      omega
    · rw [ht4 k (by omega)]
      have := sorted1 f k (by omega) hk
      omega
  refine ⟨hlen2, by omega, ?_, ?_, ?_, ?_, ?_⟩
  · -- dense
    intro i hi
    by_cases hif : i < f
    · rw [ht1 i hif, dense1 i hi]
      constructor <;> intro <;> omega
    · by_cases hif2 : i = f
      · rw [hif2, ht2, he1]
        constructor <;> intro <;> omega
      · by_cases him : i ≤ done.length
        · rw [ht3 i (by omega) him, dense1 (i - 1) (by omega)]
          constructor <;> intro <;> omega
        · rw [ht4 i (by omega), dense1 i hi]
          constructor <;> intro <;> omega
  · -- pdense
    intro i hi
    by_cases hif : i < f
    · rw [ht1 i hif, pdense1 i hi]
      constructor <;> intro <;> omega
    · by_cases hif2 : i = f
      · rw [hif2, ht2, he2]
        constructor <;> intro <;> omega
      · by_cases him : i ≤ done.length
        · rw [ht3 i (by omega) him, pdense1 (i - 1) (by omega)]
          constructor <;> intro <;> omega
        · rw [ht4 i (by omega), pdense1 i hi]
          constructor <;> intro <;> omega
  · -- sorted
    intro i j hij hj
    by_cases hjf : j < f
    · rw [ht1 i (by omega), ht1 j hjf]
      exact sorted1 i j hij (by omega)
    · by_cases hjf2 : j = f
      · rw [hjf2, ht2, he2]
        by_cases hif : i = f
        · rw [hif, ht2, he2]
        · rw [ht1 i (by omega)]
          exact hf1 i (by omega)
      · have hjq := hC j (by omega) hj
        by_cases hif : i < f
        · rw [ht1 i hif]
          have := hf1 i hif
          omega
        · by_cases hif2 : i = f
          · rw [hif2, ht2, he2]
            omega
          · -- f < i ≤ j, both in the shifted tail
            by_cases him : i ≤ done.length
            · rw [ht3 i (by omega) him]
              by_cases hjm : j ≤ done.length
              · rw [ht3 j (by omega) hjm]
                exact sorted1 (i - 1) (j - 1) (by omega) (by omega)
              · rw [ht4 j (by omega)]
                exact sorted1 (i - 1) j (by omega) hj
            · rw [ht4 i (by omega), ht4 j (by omega)]
              exact sorted1 i j hij hj
  · -- lines
    intro i hi
    rw [hlen'] at hi
    by_cases hif : i < f
    · rw [ht1 i hif]
      obtain ⟨hk, hsnd⟩ := lines1 i (by omega)
      obtain ⟨heq, hgd⟩ := lineIdx_append_lt done (irqOf (t.getD i d)) (L, q) hk
      rw [heq, hgd, hsnd]
      exact ⟨by omega, rfl⟩
    · by_cases hif2 : i = f
      · rw [hif2, ht2, he1]
        rw [lineIdx_append_fresh done L q hfresh, getD_append_last]
        rw [he2]
        exact ⟨by omega, rfl⟩
      · by_cases him : i ≤ done.length
        · rw [ht3 i (by omega) him]
          obtain ⟨hk, hsnd⟩ := lines1 (i - 1) (by omega)
          obtain ⟨heq, hgd⟩ := lineIdx_append_lt done (irqOf (t.getD (i - 1) d)) (L, q) hk
          rw [heq, hgd, hsnd]
          exact ⟨by omega, rfl⟩
        · omega
  · -- stable
    intro i j hij hj hpeq
    rw [hlen'] at hj
    by_cases hjf : j < f
    · -- both strictly below f
      rw [ht1 i (by omega), ht1 j hjf] at hpeq ⊢
      obtain ⟨hki, -⟩ := lines1 i (by omega)
      obtain ⟨hkj, -⟩ := lines1 j (by omega)
      rw [(lineIdx_append_lt done _ (L, q) hki).1, (lineIdx_append_lt done _ (L, q) hkj).1]
      exact stable1 i j hij (by omega) hpeq
    · by_cases hjf2 : j = f
      · -- the new entry is last among equals
        rw [hjf2, ht2] at hpeq ⊢
        rw [he2] at hpeq
        rw [he1]
        rw [ht1 i (by omega)] at hpeq ⊢
        obtain ⟨hki, -⟩ := lines1 i (by omega)
        rw [(lineIdx_append_lt done _ (L, q) hki).1,
          lineIdx_append_fresh done L q hfresh]
        omega
      · -- j lies strictly after f
        have hjq := hC j (by omega) (by omega)
        by_cases hif : i < f
        · rw [ht1 i hif] at hpeq
          have := hf1 i hif
          omega
        · by_cases hif2 : i = f
          · rw [hif2, ht2, he2] at hpeq
            omega
          · have hjm : j ≤ done.length := by omega
            have him : i ≤ done.length := by omega
            rw [ht3 i (by omega) him, ht3 j (by omega) hjm] at hpeq ⊢
            obtain ⟨hki, -⟩ := lines1 (i - 1) (by omega)
            obtain ⟨hkj, -⟩ := lines1 (j - 1) (by omega)
            rw [(lineIdx_append_lt done _ (L, q) hki).1,
              (lineIdx_append_lt done _ (L, q) hkj).1]
            exact stable1 (i - 1) (j - 1) (by omega) (by omega) hpeq

theorem nvIrqPred_eq_true (x : Int) (e : isrNvRecord) :
    nvIrqPred x e = true ↔ (e.irq < 0 ∨ e.irq = x) := by
  unfold nvIrqPred
  simp

theorem nvIrqPred_eq_false (x : Int) (e : isrNvRecord) :
    nvIrqPred x e = false ↔ (0 ≤ e.irq ∧ e.irq ≠ x) := by
  unfold nvIrqPred
  simp

theorem nvPrPred_eq_true (prior : Int) (e : isrNvRecord) :
    nvPrPred prior e = true ↔ (e.priority < 0 ∨ e.priority < prior) := by
  unfold nvPrPred
  simp

theorem nvPrPred_eq_false (prior : Int) (e : isrNvRecord) :
    nvPrPred prior e = false ↔ (0 ≤ e.priority ∧ prior ≤ e.priority) := by
  unfold nvPrPred
  simp

theorem vIrqPred_eq_true (x : Int) (e : isrVectRecord) :
    vIrqPred x e = true ↔ (e.irq < 0 ∨ e.irq = x) := by
  unfold vIrqPred
  simp

theorem vIrqPred_eq_false (x : Int) (e : isrVectRecord) :
    vIrqPred x e = false ↔ (0 ≤ e.irq ∧ e.irq ≠ x) := by
  unfold vIrqPred
  simp

theorem vPrPred_eq_true (prior : Int) (e : isrVectRecord) :
    vPrPred prior e = true ↔ (e.priority < 0 ∨ e.priority < prior) := by
  unfold vPrPred
  simp

theorem vPrPred_eq_false (prior : Int) (e : isrVectRecord) :
    vPrPred prior e = false ↔ (0 ≤ e.priority ∧ prior ≤ e.priority) := by
  unfold vPrPred
  simp

theorem lineIdx_pred_fst (done : List (Int × Int)) (x : Int)
    (hk : lineIdx done x < done.length) :
    (done.getD (lineIdx done x) (0, 0)).1 = x := by
  unfold lineIdx at hk ⊢
  exact of_decide_eq_true (findIdx_pred_true (0, 0) hk)

theorem nvRegister_step_inv (t : List isrNvRecord) (done : List (Int × Int)) (r : RegReq)
    (inv : SortInv isrNvRecord.irq isrNvRecord.priority emptyNvRecord done t)
    (hfresh : ∀ k, k < done.length → (done.getD k (0, 0)).1 ≠ (r.irq : Int))
    (hirq : r.irq < 32) (haddr : r.addr ≠ 0) (hm : done.length < 32) :
    SortInv isrNvRecord.irq isrNvRecord.priority emptyNvRecord
      (done ++ [((r.irq : Int), ((r.priority &&& 0x7F : Nat) : Int))])
      (pic_registerNonVectoredIrq t r.irq r.addr r.param r.priority).1 := by
  have hiP : t.findIdx (nvIrqPred (r.irq : Int)) = done.length := by
    apply findIdx_eq_of_getD emptyNvRecord (by rw [inv.len]; omega)
    · have hneg : ¬ 0 ≤ (t.getD done.length emptyNvRecord).irq := by
        rw [inv.dense done.length (by omega)]
        omega
      rw [nvIrqPred_eq_true]
      left
      omega
    · intro j hj
      have hocc : 0 ≤ (t.getD j emptyNvRecord).irq :=
        (inv.dense j (by omega)).mpr (by omega)
      have hne : (t.getD j emptyNvRecord).irq ≠ (r.irq : Int) := by
        obtain ⟨hk, -⟩ := inv.lines j (by omega)
        have heqk := lineIdx_pred_fst done (t.getD j emptyNvRecord).irq hk
        intro hcon
        exact hfresh (lineIdx done (t.getD j emptyNvRecord).irq) hk (by rw [heqk, hcon])
      rw [nvIrqPred_eq_false]
      exact ⟨hocc, hne⟩
  have hpPle : t.findIdx (nvPrPred ((r.priority &&& 0x7F : Nat) : Int)) ≤ done.length := by
    apply findIdx_le_of_pred emptyNvRecord (by rw [inv.len]; omega)
    have hneg : ¬ 0 ≤ (t.getD done.length emptyNvRecord).priority := by
      rw [inv.pdense done.length (by omega)]
      omega
    rw [nvPrPred_eq_true]
    left
    omega
  have hpp32 : t.findIdx (nvPrPred ((r.priority &&& 0x7F : Nat) : Int)) < 32 := by omega
  have hf1 : ∀ k, k < t.findIdx (nvPrPred ((r.priority &&& 0x7F : Nat) : Int)) →
      ((r.priority &&& 0x7F : Nat) : Int) ≤ (t.getD k emptyNvRecord).priority := by
    intro k hk
    have hpf := findIdx_pred_false emptyNvRecord hk
    rw [nvPrPred_eq_false] at hpf
    exact hpf.2
  have hf2 : (t.getD (t.findIdx (nvPrPred ((r.priority &&& 0x7F : Nat) : Int)))
      emptyNvRecord).priority < ((r.priority &&& 0x7F : Nat) : Int) := by
    have hpt := findIdx_pred_true emptyNvRecord
      (show t.findIdx (nvPrPred ((r.priority &&& 0x7F : Nat) : Int)) < t.length by
        rw [inv.len]; omega)
    rw [nvPrPred_eq_true] at hpt
    have hq0 : (0 : Int) ≤ ((r.priority &&& 0x7F : Nat) : Int) := Int.natCast_nonneg _
    omega
  obtain ⟨hret, hlenR, hget⟩ := nvRegister_char t r.irq r.addr r.param r.priority
    (by simp only [NR_INTERRUPTS]; omega) haddr inv.len (by rw [hiP]; omega) hpp32
  rw [hiP] at hget
  have hfP : regFinalPos done.length
      (t.findIdx (nvPrPred ((r.priority &&& 0x7F : Nat) : Int)))
      = t.findIdx (nvPrPred ((r.priority &&& 0x7F : Nat) : Int)) := by
    simp only [regFinalPos]
    rw [if_neg (by omega)]
  apply sortInvStep isrNvRecord.irq isrNvRecord.priority emptyNvRecord done t _
    { irq := (r.irq : Int), isr := r.addr, param := r.param,
      priority := ((r.priority &&& 0x7F : Nat) : Int) }
    (r.irq : Int) ((r.priority &&& 0x7F : Nat) : Int)
    (t.findIdx (nvPrPred ((r.priority &&& 0x7F : Nat) : Int)))
    inv hfresh (Int.natCast_nonneg _) (Int.natCast_nonneg _) hm rfl rfl hpPle hf1 hf2 hlenR
  · intro k hk
    rw [hget k]
    unfold shiftedGetD
    rw [hfP]
    rw [if_neg (by omega), if_neg (by omega), if_neg (by omega)]
  · rw [hget _]
    unfold shiftedGetD
    rw [hfP, if_pos rfl]
  · intro k hk1 hk2
    rw [hget k]
    unfold shiftedGetD
    rw [hfP]
    rw [if_neg (by omega), if_pos ⟨hk1, hk2⟩]
  · intro k hk
    rw [hget k]
    unfold shiftedGetD
    rw [hfP]
    rw [if_neg (by omega), if_neg (by omega), if_neg (by omega)]

theorem vRegister_step_inv (st : PicVectState) (done : List (Int × Int)) (r : RegReq)
    (inv : SortInv isrVectRecord.irq isrVectRecord.priority emptyVectRecord done st.irqVect)
    (hfresh : ∀ k, k < done.length → (done.getD k (0, 0)).1 ≠ (r.irq : Int))
    (hirq : r.irq < 32) (haddr : r.addr ≠ 0) (hm : done.length < 32) :
    SortInv isrVectRecord.irq isrVectRecord.priority emptyVectRecord
      (done ++ [((r.irq : Int), ((r.priority &&& 0x7F : Nat) : Int))])
      (pic_registerVectorIrq st r.irq r.addr r.priority).1.irqVect := by
  have hiP : st.irqVect.findIdx (vIrqPred (r.irq : Int)) = done.length := by
    apply findIdx_eq_of_getD emptyVectRecord (by rw [inv.len]; omega)
    · have hneg : ¬ 0 ≤ (st.irqVect.getD done.length emptyVectRecord).irq := by
        rw [inv.dense done.length (by omega)]
        omega
      rw [vIrqPred_eq_true]
      left
      omega
    · intro j hj
      have hocc : 0 ≤ (st.irqVect.getD j emptyVectRecord).irq :=
        (inv.dense j (by omega)).mpr (by omega)
      have hne : (st.irqVect.getD j emptyVectRecord).irq ≠ (r.irq : Int) := by
        obtain ⟨hk, -⟩ := inv.lines j (by omega)
        have heqk := lineIdx_pred_fst done (st.irqVect.getD j emptyVectRecord).irq hk
        intro hcon
        exact hfresh (lineIdx done (st.irqVect.getD j emptyVectRecord).irq) hk
          (by rw [heqk, hcon])
      rw [vIrqPred_eq_false]
      exact ⟨hocc, hne⟩
  have hpPle : st.irqVect.findIdx (vPrPred ((r.priority &&& 0x7F : Nat) : Int))
      ≤ done.length := by
    apply findIdx_le_of_pred emptyVectRecord (by rw [inv.len]; omega)
    have hneg : ¬ 0 ≤ (st.irqVect.getD done.length emptyVectRecord).priority := by
      rw [inv.pdense done.length (by omega)]
      omega
    rw [vPrPred_eq_true]
    left
    omega
  have hpp32 : st.irqVect.findIdx (vPrPred ((r.priority &&& 0x7F : Nat) : Int)) < 32 := by
    omega
  have hf1 : ∀ k, k < st.irqVect.findIdx (vPrPred ((r.priority &&& 0x7F : Nat) : Int)) →
      ((r.priority &&& 0x7F : Nat) : Int)
        ≤ (st.irqVect.getD k emptyVectRecord).priority := by
    intro k hk
    have hpf := findIdx_pred_false emptyVectRecord hk
    rw [vPrPred_eq_false] at hpf
    exact hpf.2
  have hf2 : (st.irqVect.getD
      (st.irqVect.findIdx (vPrPred ((r.priority &&& 0x7F : Nat) : Int)))
      emptyVectRecord).priority < ((r.priority &&& 0x7F : Nat) : Int) := by
    have hpt := findIdx_pred_true emptyVectRecord
      (show st.irqVect.findIdx (vPrPred ((r.priority &&& 0x7F : Nat) : Int))
          < st.irqVect.length by rw [inv.len]; omega)
    rw [vPrPred_eq_true] at hpt
    have hq0 : (0 : Int) ≤ ((r.priority &&& 0x7F : Nat) : Int) := Int.natCast_nonneg _
    omega
  obtain ⟨hret, hlenR, hget⟩ := vRegister_char st r.irq r.addr r.priority
    (by simp only [NR_INTERRUPTS]; omega) haddr inv.len (by rw [hiP]; omega) hpp32
  rw [hiP] at hget
  have hfP : regFinalPos done.length
      (st.irqVect.findIdx (vPrPred ((r.priority &&& 0x7F : Nat) : Int)))
      = st.irqVect.findIdx (vPrPred ((r.priority &&& 0x7F : Nat) : Int)) := by
    simp only [regFinalPos]
    rw [if_neg (by omega)]
  apply sortInvStep isrVectRecord.irq isrVectRecord.priority emptyVectRecord done st.irqVect _
    { irq := (r.irq : Int), isr := r.addr,
      priority := ((r.priority &&& 0x7F : Nat) : Int) }
    (r.irq : Int) ((r.priority &&& 0x7F : Nat) : Int)
    (st.irqVect.findIdx (vPrPred ((r.priority &&& 0x7F : Nat) : Int)))
    inv hfresh (Int.natCast_nonneg _) (Int.natCast_nonneg _) hm rfl rfl hpPle hf1 hf2 hlenR
  · intro k hk
    rw [hget k]
    unfold shiftedGetD
    rw [hfP]
    rw [if_neg (by omega), if_neg (by omega), if_neg (by omega)]
  · rw [hget _]
    unfold shiftedGetD
    rw [hfP, if_pos rfl]
  · intro k hk1 hk2
    rw [hget k]
    unfold shiftedGetD
    rw [hfP]
    rw [if_neg (by omega), if_pos ⟨hk1, hk2⟩]
  · intro k hk
    rw [hget k]
    unfold shiftedGetD
    rw [hfP]
    rw [if_neg (by omega), if_neg (by omega), if_neg (by omega)]

theorem nvInit_sortInv :
    SortInv isrNvRecord.irq isrNvRecord.priority emptyNvRecord [] initNvTable := by
  refine ⟨initNvTable_length, by simp, ?_, ?_, ?_, ?_, ?_⟩
  · intro i hi
    rw [initNvTable_getD i hi]
    constructor
    · intro h
      norm_num [emptyNvRecord] at h
    · intro h
      exact absurd h (Nat.not_lt_zero i)
  · intro i hi
    rw [initNvTable_getD i hi]
    constructor
    · intro h
      norm_num [emptyNvRecord] at h
    · intro h
      exact absurd h (Nat.not_lt_zero i)
  · intro i j hij hj
    rw [initNvTable_getD i (by omega), initNvTable_getD j hj]
  · intro i hi
    exact absurd hi (Nat.not_lt_zero i)
  · intro i j hij hj hpeq
    exact absurd hj (Nat.not_lt_zero j)

theorem vInit_sortInv :
    SortInv isrVectRecord.irq isrVectRecord.priority emptyVectRecord []
      pic_init_vect.irqVect := by
  refine ⟨initVect_irqVect_length, by simp, ?_, ?_, ?_, ?_, ?_⟩
  · intro i hi
    rw [initVect_irqVect_getD i hi]
    constructor
    · intro h
      norm_num [emptyVectRecord] at h
    · intro h
      exact absurd h (Nat.not_lt_zero i)
  · intro i hi
    rw [initVect_irqVect_getD i hi]
    constructor
    · intro h
      norm_num [emptyVectRecord] at h
    · intro h
      exact absurd h (Nat.not_lt_zero i)
  · intro i j hij hj
    rw [initVect_irqVect_getD i (by omega), initVect_irqVect_getD j hj]
  · intro i hi
    exact absurd hi (Nat.not_lt_zero i)
  · intro i j hij hj hpeq
    exact absurd hj (Nat.not_lt_zero j)

/-- Freshness of a request's line with respect to the already processed
prefix, derived from `Nodup` of the whole line sequence. -/
theorem encode_fresh (done rest : List RegReq) (r : RegReq)
    (hnodup : ((done ++ r :: rest).map RegReq.irq).Nodup) :
    ∀ k, k < (done.map encodeReq).length →
      ((done.map encodeReq).getD k (0, 0)).1 ≠ (r.irq : Int) := by
  intro k hk
  rw [List.length_map] at hk
  have h0 : ((0, 0) : Int × Int) = encodeReq ⟨0, 0, 0, 0⟩ := rfl
  rw [h0, List.getD_map]
  have hmem : done.getD k ⟨0, 0, 0, 0⟩ ∈ done := by
    rw [getD_of_lt done _ hk]
    exact List.getElem_mem hk
  rw [List.map_append, List.nodup_append] at hnodup
  obtain ⟨-, -, hdisj⟩ := hnodup
  intro hcon
  have hirqeq : (done.getD k ⟨0, 0, 0, 0⟩).irq = r.irq := by
    simp only [encodeReq] at hcon
    exact_mod_cast hcon
  apply hdisj (List.mem_map_of_mem RegReq.irq hmem)
  rw [List.map_cons, hirqeq]
  exact List.mem_cons_self _ _

theorem nvRun_fold_inv : ∀ (rest done : List RegReq) (t : List isrNvRecord),
    SortInv isrNvRecord.irq isrNvRecord.priority emptyNvRecord (done.map encodeReq) t →
    ((done ++ rest).map RegReq.irq).Nodup →
    (∀ r ∈ rest, r.irq < 32 ∧ r.addr ≠ 0) →
    (done ++ rest).length ≤ 32 →
    SortInv isrNvRecord.irq isrNvRecord.priority emptyNvRecord
      ((done ++ rest).map encodeReq)
      (rest.foldl
        (fun t r => (pic_registerNonVectoredIrq t r.irq r.addr r.param r.priority).1) t) := by
  intro rest
  induction rest with
  | nil =>
    intro done t inv _ _ _
    simpa using inv
  | cons r rest ih =>
    intro done t inv hnodup hvalid hlen
    have hm : done.length < 32 := by
      rw [List.length_append, List.length_cons] at hlen
      omega
    have hr := hvalid r (List.mem_cons_self _ _)
    have hstep := nvRegister_step_inv t (done.map encodeReq) r inv
      (encode_fresh done rest r hnodup) hr.1 hr.2
      (by rw [List.length_map]; exact hm)
    have hstep2 : SortInv isrNvRecord.irq isrNvRecord.priority emptyNvRecord
        ((done ++ [r]).map encodeReq)
        (pic_registerNonVectoredIrq t r.irq r.addr r.param r.priority).1 := by
      rw [List.map_append]
      simpa [encodeReq] using hstep
    have hrec := ih (done ++ [r]) _ hstep2
      (by rw [List.append_assoc]; simpa using hnodup)
      (fun x hx => hvalid x (List.mem_cons_of_mem r hx))
      (by rw [List.append_assoc]; simpa using hlen)
    rw [List.foldl_cons]
    rw [show done ++ r :: rest = (done ++ [r]) ++ rest by rw [List.append_assoc]; rfl]
    exact hrec

theorem vRun_fold_inv : ∀ (rest done : List RegReq) (st : PicVectState),
    SortInv isrVectRecord.irq isrVectRecord.priority emptyVectRecord (done.map encodeReq)
      st.irqVect →
    ((done ++ rest).map RegReq.irq).Nodup →
    (∀ r ∈ rest, r.irq < 32 ∧ r.addr ≠ 0) →
    (done ++ rest).length ≤ 32 →
    SortInv isrVectRecord.irq isrVectRecord.priority emptyVectRecord
      ((done ++ rest).map encodeReq)
      ((rest.foldl
        (fun st r => (pic_registerVectorIrq st r.irq r.addr r.priority).1) st).irqVect) := by
  intro rest
  induction rest with
  | nil =>
    intro done st inv _ _ _
    simpa using inv
  | cons r rest ih =>
    intro done st inv hnodup hvalid hlen
    have hm : done.length < 32 := by
      rw [List.length_append, List.length_cons] at hlen
      omega
    have hr := hvalid r (List.mem_cons_self _ _)
    have hstep := vRegister_step_inv st (done.map encodeReq) r inv
      (encode_fresh done rest r hnodup) hr.1 hr.2
      (by rw [List.length_map]; exact hm)
    have hstep2 : SortInv isrVectRecord.irq isrVectRecord.priority emptyVectRecord
        ((done ++ [r]).map encodeReq)
        (pic_registerVectorIrq st r.irq r.addr r.priority).1.irqVect := by
      rw [List.map_append]
      simpa [encodeReq] using hstep
    have hrec := ih (done ++ [r]) _ hstep2
      (by rw [List.append_assoc]; simpa using hnodup)
      (fun x hx => hvalid x (List.mem_cons_of_mem r hx))
      (by rw [List.append_assoc]; simpa using hlen)
    rw [List.foldl_cons]
    rw [show done ++ r :: rest = (done ++ [r]) ++ rest by rw [List.append_assoc]; rfl]
    exact hrec

theorem lineIdx_encode (regs : List RegReq) (x : Int) :
    lineIdx (regs.map encodeReq) x
      = (regs.map (fun r => (r.irq : Int))).findIdx (fun y => decide (y = x)) := by
  unfold lineIdx
  rw [findIdx_map, findIdx_map]
  simp [encodeReq]

/-! ### Claim C4 -/

/-- C4: for every sequence of at most 32 valid registrations on pairwise
distinct lines, in either registry, the resulting table is sorted by
non-increasing priority (the `-1` sentinels trail every stored priority), and
among occupied entries of equal priority the one whose line was registered
earlier (smaller index in the request sequence) occupies the earlier table
index — stable ordering. -/
theorem register_sorted_stable (regs : List RegReq)
    (hn : regs.length ≤ 32)
    (hv : ∀ r ∈ regs, r.irq < 32 ∧ r.addr ≠ 0)
    (hd : (regs.map RegReq.irq).Nodup) :
    (∀ i j, i ≤ j → j < 32 →
      ((nvRunRegs regs).getD j emptyNvRecord).priority
        ≤ ((nvRunRegs regs).getD i emptyNvRecord).priority) ∧
    (∀ i j, i < j → j < 32 →
      0 ≤ ((nvRunRegs regs).getD i emptyNvRecord).irq →
      0 ≤ ((nvRunRegs regs).getD j emptyNvRecord).irq →
      ((nvRunRegs regs).getD i emptyNvRecord).priority
        = ((nvRunRegs regs).getD j emptyNvRecord).priority →
      (regs.map (fun r => (r.irq : Int))).findIdx
          (fun y => decide (y = ((nvRunRegs regs).getD i emptyNvRecord).irq))
        < (regs.map (fun r => (r.irq : Int))).findIdx
          (fun y => decide (y = ((nvRunRegs regs).getD j emptyNvRecord).irq))) ∧
    (∀ i j, i ≤ j → j < 32 →
      ((vRunRegs regs).irqVect.getD j emptyVectRecord).priority
        ≤ ((vRunRegs regs).irqVect.getD i emptyVectRecord).priority) ∧
    (∀ i j, i < j → j < 32 →
      0 ≤ ((vRunRegs regs).irqVect.getD i emptyVectRecord).irq →
      0 ≤ ((vRunRegs regs).irqVect.getD j emptyVectRecord).irq →
      ((vRunRegs regs).irqVect.getD i emptyVectRecord).priority
        = ((vRunRegs regs).irqVect.getD j emptyVectRecord).priority →
      (regs.map (fun r => (r.irq : Int))).findIdx
          (fun y => decide (y = ((vRunRegs regs).irqVect.getD i emptyVectRecord).irq))
        < (regs.map (fun r => (r.irq : Int))).findIdx
          (fun y => decide (y = ((vRunRegs regs).irqVect.getD j emptyVectRecord).irq))) := by
  have hinv : SortInv isrNvRecord.irq isrNvRecord.priority emptyNvRecord
      (regs.map encodeReq) (nvRunRegs regs) := by
    have h := nvRun_fold_inv regs [] initNvTable nvInit_sortInv
      (by simpa using hd) hv (by simpa using hn)
    simpa [nvRunRegs] using h
  have hvinv : SortInv isrVectRecord.irq isrVectRecord.priority emptyVectRecord
      (regs.map encodeReq) (vRunRegs regs).irqVect := by
    have h := vRun_fold_inv regs [] pic_init_vect vInit_sortInv
      (by simpa using hd) hv (by simpa using hn)
    simpa [vRunRegs] using h
  refine ⟨hinv.sorted, ?_, hvinv.sorted, ?_⟩
  · intro i j hij hj hocci hoccj hpeq
    have hjlen : j < (regs.map encodeReq).length := (hinv.dense j hj).mp hoccj
    have h := hinv.stable i j hij hjlen hpeq
    rw [lineIdx_encode, lineIdx_encode] at h
    exact h
  · intro i j hij hj hocci hoccj hpeq
    have hjlen : j < (regs.map encodeReq).length := (hvinv.dense j hj).mp hoccj
    have h := hvinv.stable i j hij hjlen hpeq
    rw [lineIdx_encode, lineIdx_encode] at h
    exact h

unseal nvShiftDown nvShiftUp vShiftDown vShiftUp in
/-- Witness for C4 on two registrations (line 5 priority 10, then line 3
priority 50): the entry at index 1 has priority at most that of index 0. -/
theorem register_sorted_stable_witness :
    (c4Regs.length ≤ 32 ∧ (c4Regs.map RegReq.irq).Nodup) ∧
    ((nvRunRegs c4Regs).getD 1 emptyNvRecord).priority
      ≤ ((nvRunRegs c4Regs).getD 0 emptyNvRecord).priority := by
  have h := register_sorted_stable c4Regs (by decide) (by decide) (by decide)
  exact ⟨⟨by decide, by decide⟩, h.1 0 1 (by omega) (by omega)⟩
